import Mathlib

/-!
Verification of the squix-ai query-orchestration pipeline.

The TypeScript source (src/index.ts, src/db/introspector.ts, src/utils/parser.ts)
is shallowly embedded below.  JavaScript strings are modelled as `List Char`;
the handful of JavaScript builtins the code relies on (String.prototype.trim,
String.prototype.toUpperCase restricted to ASCII, RegExp word boundaries over
the `\w = [A-Za-z0-9_]` class, JSON.parse) are modelled explicitly.  External
collaborators (the Gemini models, the Prisma database client) are modelled as
oracles: functions from the prompt / statement text to the response the
collaborator would produce.  All definitions are executable.
-/

/-- JavaScript whitespace for `String.prototype.trim` and the regex class `\s`
(ASCII part: space, tab, newline, carriage return, vertical tab, form feed). -/
def isWS (c : Char) : Bool :=
  c = ' ' || c = '\t' || c = '\n' || c = '\r' || c = '\x0b' || c = '\x0c'

/-- The regex word-character class `\w = [A-Za-z0-9_]` used by `\b`. -/
def isWordChar (c : Char) : Bool :=
  ('A' ≤ c && c ≤ 'Z') || ('a' ≤ c && c ≤ 'z') || ('0' ≤ c && c ≤ '9') || c = '_'

/-- ASCII case mapping of `String.prototype.toUpperCase` (the SQL statements and
keywords the validator handles are ASCII). -/
def asciiUpper (c : Char) : Char :=
  match c with
  | 'a' => 'A' | 'b' => 'B' | 'c' => 'C' | 'd' => 'D' | 'e' => 'E' | 'f' => 'F'
  | 'g' => 'G' | 'h' => 'H' | 'i' => 'I' | 'j' => 'J' | 'k' => 'K' | 'l' => 'L'
  | 'm' => 'M' | 'n' => 'N' | 'o' => 'O' | 'p' => 'P' | 'q' => 'Q' | 'r' => 'R'
  | 's' => 'S' | 't' => 'T' | 'u' => 'U' | 'v' => 'V' | 'w' => 'W' | 'x' => 'X'
  | 'y' => 'Y' | 'z' => 'Z'
  | other => other

/-- `String.prototype.trim`: drop leading and trailing whitespace. -/
def trimList (l : List Char) : List Char :=
  ((l.dropWhile isWS).reverse.dropWhile isWS).reverse

/-- One `replace` of the JavaScript regex `/;+\s*$/g`: remove a trailing run of
semicolons followed by trailing whitespace (the regex matches a suffix made of
one or more `;` followed by whitespace; with `g` at most one such suffix match
exists). -/
def stripSemiSuffix (l : List Char) : List Char :=
  let afterWs := l.reverse.dropWhile isWS
  let semis := afterWs.takeWhile (fun c => c = ';')
  if semis.isEmpty then l
  else (afterWs.dropWhile (fun c => c = ';')).reverse

/-- `query.trim().replace(/;+\s*$/g, "")` — the cleaning step of the validator
(src/index.ts line 240). -/
def cleanSQL (query : List Char) : List Char :=
  stripSemiSuffix (trimList query)

/-- Helper for `wbTest`: is the character before the current scan position a
word character?  `none` means the scan position is the start of the string. -/
def boundaryBefore (prev : Option Char) : Bool :=
  match prev with
  | none => true
  | some c => !isWordChar c

/-- Helper for `wbTest`: the character after a keyword occurrence must not be a
word character (end of string is a boundary). -/
def boundaryAfter (l : List Char) : Bool :=
  match l with
  | [] => true
  | c :: _ => !isWordChar c

/-- Scanner for `new RegExp("\\b" + keyword + "\\b").test(s)`: `prev` is the
character immediately before `s` in the scanned string (`none` at the start). -/
def wbAux (kw : List Char) (prev : Option Char) : List Char → Bool
  | [] => kw.isPrefixOf [] && boundaryBefore prev && boundaryAfter ([].drop kw.length)
  | c :: rest =>
    (kw.isPrefixOf (c :: rest) && boundaryBefore prev
      && boundaryAfter ((c :: rest).drop kw.length))
    || wbAux kw (some c) rest

/-- `new RegExp("\\b" + keyword + "\\b").test(s)` for a keyword made of word
characters. -/
def wbTest (kw s : List Char) : Bool :=
  wbAux kw none s

/-- The fixed denylist of src/index.ts lines 245-256. -/
def dangerousKeywords : List (List Char) :=
  [("DROP").data, ("DELETE").data, ("TRUNCATE").data, ("ALTER").data,
   ("CREATE").data, ("INSERT").data, ("UPDATE").data, ("GRANT").data,
   ("REVOKE").data, ("EXEC").data]

/-- Errors raised inside `getSQLFromLLM` (src/index.ts lines 231-263).  In the
source every branch throws an `Error` whose message is then wrapped by the
`catch` block; the constructors keep the identity of each throw site. -/
inductive GenErr where
  | parseNoJson : GenErr
  | parseFailed : GenErr
  | invalidQueryKey : GenErr
  | injection : GenErr
  | dangerous (kw : List Char) : GenErr
deriving DecidableEq

/-- The validator chain of `getSQLFromLLM` applied to the extracted `query`
string (src/index.ts lines 240-263): clean the statement, reject a remaining
`;`, reject a word-boundary match of any denylisted keyword on the uppercased
statement, otherwise return the cleaned statement. -/
def validateSQLCandidate (query : List Char) : Except GenErr (List Char) :=
  let cleanQuery := cleanSQL query
  if cleanQuery.contains ';' then Except.error GenErr.injection
  else
    match dangerousKeywords.find? (fun kw => wbTest kw (cleanQuery.map asciiUpper)) with
    | some kw => Except.error (GenErr.dangerous kw)
    | none => Except.ok cleanQuery

/-- JSON values as produced by the `JSON.parse` builtin.  Number literals keep
their lexeme (the pipeline never computes with numbers). -/
inductive Json where
  | null : Json
  | bool (b : Bool) : Json
  | num (lexeme : List Char) : Json
  | str (s : List Char) : Json
  | arr (elems : List Json) : Json
  | obj (fields : List (List Char × Json)) : Json

/-- JSON insignificant whitespace (RFC 8259: space, tab, line feed, carriage
return). -/
def isJsonWs (c : Char) : Bool :=
  c = ' ' || c = '\t' || c = '\n' || c = '\r'

def isDigitC (c : Char) : Bool := '0' ≤ c && c ≤ '9'

def hexVal (c : Char) : Option Nat :=
  if '0' ≤ c && c ≤ '9' then some (c.toNat - ('0').toNat)
  else if 'a' ≤ c && c ≤ 'f' then some (10 + c.toNat - ('a').toNat)
  else if 'A' ≤ c && c ≤ 'F' then some (10 + c.toNat - ('A').toNat)
  else none

/-- JSON string body after the opening quote: returns the decoded content and
the remainder after the closing quote. -/
def parseStringBody : List Char → Option (List Char × List Char)
  | [] => none
  | '"' :: rest => some ([], rest)
  | '\\' :: rest =>
    match rest with
    | '"' :: r => (parseStringBody r).map (fun p => ('"' :: p.1, p.2))
    | '\\' :: r => (parseStringBody r).map (fun p => ('\\' :: p.1, p.2))
    | '/' :: r => (parseStringBody r).map (fun p => ('/' :: p.1, p.2))
    | 'b' :: r => (parseStringBody r).map (fun p => ((Char.ofNat 8) :: p.1, p.2))
    | 'f' :: r => (parseStringBody r).map (fun p => ((Char.ofNat 12) :: p.1, p.2))
    | 'n' :: r => (parseStringBody r).map (fun p => ('\n' :: p.1, p.2))
    | 'r' :: r => (parseStringBody r).map (fun p => ('\r' :: p.1, p.2))
    | 't' :: r => (parseStringBody r).map (fun p => ('\t' :: p.1, p.2))
    | 'u' :: h1 :: h2 :: h3 :: h4 :: r =>
      match hexVal h1, hexVal h2, hexVal h3, hexVal h4 with
      | some a, some b, some c, some d =>
        (parseStringBody r).map
          (fun p => ((Char.ofNat (4096 * a + 256 * b + 16 * c + d)) :: p.1, p.2))
      | _, _, _, _ => none
    | _ => none
  | c :: rest =>
    if c.toNat < 32 then none
    else (parseStringBody rest).map (fun p => (c :: p.1, p.2))

/-- `-?(0|[1-9][0-9]*)` then optional fraction and exponent; returns the lexeme. -/
def parseNumberLexeme (l : List Char) : Option (List Char × List Char) :=
  let step1 : Option (List Char × List Char) :=
    match l with
    | '-' :: r => some (['-'], r)
    | _ => some ([], l)
  match step1 with
  | none => none
  | some (sign, l1) =>
    let intPart : Option (List Char × List Char) :=
      match l1 with
      | '0' :: r => some (['0'], r)
      | c :: _ =>
        if isDigitC c && c ≠ '0' then
          some (l1.takeWhile isDigitC, l1.dropWhile isDigitC)
        else none
      | [] => none
    match intPart with
    | none => none
    | some (ip, l2) =>
      let fracPart : Option (List Char × List Char) :=
        match l2 with
        | '.' :: r =>
          let ds := r.takeWhile isDigitC
          if ds.isEmpty then none else some ('.' :: ds, r.dropWhile isDigitC)
        | _ => some ([], l2)
      match fracPart with
      | none => none
      | some (fp, l3) =>
        let expPart : Option (List Char × List Char) :=
          match l3 with
          | e :: r =>
            if e = 'e' || e = 'E' then
              let (sgn, r2) : List Char × List Char :=
                match r with
                | '+' :: r2 => (['+'], r2)
                | '-' :: r2 => (['-'], r2)
                | _ => ([], r)
              let ds := r2.takeWhile isDigitC
              if ds.isEmpty then none
              else some (e :: (sgn ++ ds), r2.dropWhile isDigitC)
            else some ([], l3)
          | [] => some ([], l3)
        match expPart with
        | none => none
        | some (ep, l4) => some (sign ++ ip ++ fp ++ ep, l4)

mutual

/-- Recursive-descent JSON value parser (fuel-indexed model of `JSON.parse`). -/
def parseVal : Nat → List Char → Option (Json × List Char)
  | 0, _ => none
  | Nat.succ fuel, l =>
    let l := l.dropWhile isJsonWs
    match l with
    | '\x7b' :: rest => parseObjRest fuel rest
    | '[' :: rest => parseArrRest fuel rest
    | '"' :: rest => (parseStringBody rest).map (fun p => (Json.str p.1, p.2))
    | _ =>
      if (("true").data).isPrefixOf l then some (Json.bool true, l.drop 4)
      else if (("false").data).isPrefixOf l then some (Json.bool false, l.drop 5)
      else if (("null").data).isPrefixOf l then some (Json.null, l.drop 4)
      else (parseNumberLexeme l).map (fun p => (Json.num p.1, p.2))

/-- After an opening brace: an empty object or a member list. -/
def parseObjRest : Nat → List Char → Option (Json × List Char)
  | 0, _ => none
  | Nat.succ fuel, l =>
    match l.dropWhile isJsonWs with
    | '\x7d' :: rest => some (Json.obj [], rest)
    | other => parseMembers fuel other []

/-- Object members: `"key" : value` separated by commas, ended by `}`. -/
def parseMembers : Nat → List Char → List (List Char × Json) →
    Option (Json × List Char)
  | 0, _, _ => none
  | Nat.succ fuel, l, acc =>
    match l.dropWhile isJsonWs with
    | '"' :: rest =>
      match parseStringBody rest with
      | none => none
      | some (key, r1) =>
        match r1.dropWhile isJsonWs with
        | ':' :: r2 =>
          match parseVal fuel r2 with
          | none => none
          | some (v, r3) =>
            match r3.dropWhile isJsonWs with
            | ',' :: r4 => parseMembers fuel r4 (acc ++ [(key, v)])
            | '\x7d' :: r4 => some (Json.obj (acc ++ [(key, v)]), r4)
            | _ => none
        | _ => none
    | _ => none

/-- After an opening bracket: an empty array or an element list. -/
def parseArrRest : Nat → List Char → Option (Json × List Char)
  | 0, _ => none
  | Nat.succ fuel, l =>
    match l.dropWhile isJsonWs with
    | ']' :: rest => some (Json.arr [], rest)
    | other => parseElems fuel other []

/-- Array elements separated by commas, ended by `]`. -/
def parseElems : Nat → List Char → List Json → Option (Json × List Char)
  | 0, _, _ => none
  | Nat.succ fuel, l, acc =>
    match parseVal fuel l with
    | none => none
    | some (v, r1) =>
      match r1.dropWhile isJsonWs with
      | ',' :: r2 => parseElems fuel r2 (acc ++ [v])
      | ']' :: r2 => some (Json.arr (acc ++ [v]), r2)
      | _ => none

end

/-- Model of the `JSON.parse` builtin: parse one value, require only
whitespace after it. -/
def JSONparse (l : List Char) : Option Json :=
  match parseVal (4 * l.length + 16) l with
  | some (v, rest) => if (rest.dropWhile isJsonWs).isEmpty then some v else none
  | none => none

/-- Scanner for the first multiline-`^` position where `/^```(?:json|JSON)?\s*\n?/m`
matches, i.e. the first line start carrying three backticks.  `atStart` records
whether the current position is a line start. -/
def findLeadFence : List Char → Bool → Option Nat
  | [], _ => none
  | c :: rest, atStart =>
    if atStart && (("```").data).isPrefixOf (c :: rest) then some 0
    else (findLeadFence rest (c = '\n')).map (fun n => n + 1)

/-- Length of the optional `(?:json|JSON)?` tag at the given position. -/
def fenceTagLen (l : List Char) : Nat :=
  if (("json").data).isPrefixOf l || (("JSON").data).isPrefixOf l then 4 else 0

/-- Length matched by `(?:json|JSON)?\s*\n?` starting right after the three
backticks: the optional tag, then the maximal whitespace run (`\s*` is greedy
and `\s` includes the newline, so the trailing `\n?` adds nothing). -/
def leadSpanLen (l : List Char) : Nat :=
  let t := fenceTagLen l
  t + ((l.drop t).takeWhile isWS).length

/-- `cleanText.replace(/^```(?:json|JSON)?\s*\n?/m, "")` (src/utils/parser.ts
line 4): remove the first leading-fence match, if any. -/
def removeLeadingFence (l : List Char) : List Char :=
  match findLeadFence l true with
  | none => l
  | some p =>
    let after := l.drop (p + 3)
    l.take p ++ after.drop (leadSpanLen after)

/-- Does a multiline `$` hold at this position (end of string, or a newline
follows)? -/
def lineEndAt (l : List Char) : Bool :=
  match l with
  | [] => true
  | c :: _ => c = '\n'

/-- Greedy `\s*$` with backtracking, for the text right after the closing
backticks: the largest whitespace run length after which a multiline `$`
holds, if any. -/
def wsBacktrack (l : List Char) : Option Nat :=
  let run := (l.takeWhile isWS).length
  (List.range (run + 1)).reverse.find? (fun j => lineEndAt (l.drop j))

/-- Match attempt of `/\n?```\s*$/m` at the head of `l`: returns the length of
the matched span.  The greedy `\n?` is tried first; if the leading character
is not a newline the optional group matches empty. -/
def trailMatchAt (l : List Char) : Option Nat :=
  match l with
  | '\n' :: rest =>
    if (("```").data).isPrefixOf rest then (wsBacktrack (rest.drop 3)).map (fun j => 4 + j)
    else none
  | _ =>
    if (("```").data).isPrefixOf l then (wsBacktrack (l.drop 3)).map (fun j => 3 + j)
    else none

/-- Leftmost match of `/\n?```\s*$/m`: position and span length. -/
def findTrailFence : List Char → Option (Nat × Nat)
  | [] => none
  | c :: rest =>
    match trailMatchAt (c :: rest) with
    | some span => some (0, span)
    | none => (findTrailFence rest).map (fun p => (p.1 + 1, p.2))

/-- `cleanText.replace(/\n?```\s*$/m, "")` (src/utils/parser.ts line 5):
remove the first trailing-fence match, if any. -/
def removeTrailingFence (l : List Char) : List Char :=
  match findTrailFence l with
  | none => l
  | some (p, span) => l.take p ++ l.drop (p + span)

/-- `indexOf` of a character. -/
def indexOfChar (l : List Char) (c : Char) : Option Nat :=
  l.findIdx? (fun x => x = c)

/-- `lastIndexOf` of a character. -/
def lastIndexOfChar (l : List Char) (c : Char) : Option Nat :=
  (l.reverse.findIdx? (fun x => x = c)).map (fun i => l.length - 1 - i)

/-- Failures of `parseIntelligentJson`: no brace pair found, or `JSON.parse`
rejected the slice. -/
inductive PErr where
  | noJsonObject : PErr
  | parseFailed : PErr
deriving DecidableEq

/-- `parseIntelligentJson` (src/utils/parser.ts): trim, strip one leading and
one trailing code fence, trim again, slice from the first `{` to the last `}`
inclusive, and `JSON.parse` the slice. -/
def parseIntelligentJson (text : List Char) : Except PErr Json :=
  let t1 := trimList text
  let t2 := removeLeadingFence t1
  let t3 := removeTrailingFence t2
  let c := trimList t3
  match indexOfChar c '\x7b', lastIndexOfChar c '\x7d' with
  | some fb, some lb =>
    if lb < fb then Except.error PErr.noJsonObject
    else
      match JSONparse ((c.drop fb).take (lb + 1 - fb)) with
      | some v => Except.ok v
      | none => Except.error PErr.parseFailed
  | _, _ => Except.error PErr.noJsonObject

/-- JavaScript property access on a parsed JSON value (`parsedJson.query`,
destructuring `{ intent, missing_info }`): `none` models `undefined`.  Object
literals built by `JSON.parse` keep the last of duplicate keys. -/
def Json.getField : Json → List Char → Option Json
  | Json.obj fields, key =>
    fields.foldl (fun acc f => if f.1 = key then some f.2 else acc) none
  | _, _ => none

/-- Does a JSON number lexeme denote zero (its mantissa has no nonzero digit)? -/
def numLexemeIsZero (l : List Char) : Bool :=
  ((l.takeWhile (fun c => c ≠ 'e' && c ≠ 'E')).filter isDigitC).all (fun c => c = '0')

/-- JavaScript truthiness of a JSON value (with `none` = `undefined` handled at
use sites). -/
def jsTruthy : Json → Bool
  | Json.null => false
  | Json.bool b => b
  | Json.num l => !numLexemeIsZero l
  | Json.str s => !s.isEmpty
  | Json.arr _ => true
  | Json.obj _ => true

mutual

/-- JavaScript string coercion of a JSON value, as used by template-literal
interpolation (arrays join their coerced elements with commas, rendering
`null` elements as empty). -/
def jsToString : Json → List Char
  | Json.null => ("null").data
  | Json.bool true => ("true").data
  | Json.bool false => ("false").data
  | Json.num l => l
  | Json.str s => s
  | Json.arr xs => jsArrJoin xs
  | Json.obj _ => ("[object Object]").data

/-- `Array.prototype.join(",")` with `null` elements rendered empty. -/
def jsArrJoin : List Json → List Char
  | [] => []
  | [x] =>
    (match x with
     | Json.null => []
     | v => jsToString v)
  | x :: y :: xs =>
    (match x with
     | Json.null => []
     | v => jsToString v) ++ ',' :: jsArrJoin (y :: xs)

end

/-- `getSQLFromLLM` (src/index.ts lines 227-272) as a function of the model
response text: extract the JSON object, require a non-empty string under the
`query` key, then run the validator chain.  The `catch` block rethrows each of
these errors wrapped in a fixed message; the constructor identity is kept. -/
def getSQLFromLLM (responseText : List Char) : Except GenErr (List Char) :=
  match parseIntelligentJson responseText with
  | Except.error PErr.noJsonObject => Except.error GenErr.parseNoJson
  | Except.error PErr.parseFailed => Except.error GenErr.parseFailed
  | Except.ok parsedJson =>
    match parsedJson.getField (("query").data) with
    | some (Json.str q) =>
      if q.isEmpty then Except.error GenErr.invalidQueryKey
      else validateSQLCandidate q
    | _ => Except.error GenErr.invalidQueryKey

/-- Row of the PostgreSQL column-metadata query (information_schema.columns). -/
structure PgColumn where
  column_name : List Char
  data_type : List Char
  is_nullable : List Char

/-- Row of a foreign-key metadata query. -/
structure ForeignKeyRow where
  fk_column : List Char
  target_table : List Char
  target_column : List Char

/-- One PostgreSQL user table together with the metadata rows the introspector
queries for it. -/
structure PgTable where
  tablename : List Char
  columns : List PgColumn
  foreignKeys : List ForeignKeyRow

/-- Row of the MySQL column-metadata query. -/
structure MyColumn where
  column_name : List Char
  column_type : List Char
  is_nullable : List Char
  column_key : List Char

/-- One MySQL table together with its metadata rows. -/
structure MyTable where
  tablename : List Char
  columns : List MyColumn
  foreignKeys : List ForeignKeyRow

/-- The metadata a connected database answers to the introspection queries.
`pgTables` is the result of the pg_catalog.pg_tables listing (which still
contains `_prisma_migrations`); `myTables` is the result of the MySQL
information_schema listing (whose WHERE clause already excludes it). -/
structure Db where
  pgTables : List PgTable
  myTables : List MyTable

def joinWith (sep : List Char) : List (List Char) → List Char
  | [] => []
  | [x] => x
  | x :: y :: xs => x ++ sep ++ joinWith sep (y :: xs)

/-- `getPostgresTableSchema` (introspector lines 44-90): render one table
block with double-quoted identifiers. -/
def getPostgresTableSchema (t : PgTable) : List Char :=
  let base := ("Table \"").data ++ t.tablename ++ ("\":\n").data
  let withCols := t.columns.foldl (fun acc c =>
    let constraints : List (List Char) :=
      if c.is_nullable = ("NO").data then [("NOT NULL").data] else []
    let constraintsString :=
      if constraints.length > 0
      then (" (").data ++ joinWith ((", ").data) constraints ++ (")").data
      else []
    acc ++ ("  - \"").data ++ c.column_name ++ ("\" (").data ++ c.data_type
      ++ (")").data ++ constraintsString ++ ("\n").data) base
  let withFks :=
    if t.foreignKeys.length > 0 then
      t.foreignKeys.foldl (fun acc fk =>
        acc ++ ("    - \"").data ++ fk.fk_column ++ ("\" references \"").data
          ++ fk.target_table ++ ("\"(\"").data ++ fk.target_column
          ++ ("\")\n").data)
        (withCols ++ ("  Relationships:\n").data)
    else withCols
  withFks ++ ("\n").data

/-- `getMysqlTableSchema` (introspector lines 92-143): render one table block
with backtick-quoted identifiers and PRIMARY KEY / UNIQUE markers. -/
def getMysqlTableSchema (t : MyTable) : List Char :=
  let base := ("Table `").data ++ t.tablename ++ ("`:\n").data
  let withCols := t.columns.foldl (fun acc c =>
    let constraints : List (List Char) :=
      (if c.column_key = ("PRI").data then [("PRIMARY KEY").data] else [])
      ++ (if c.column_key = ("UNI").data then [("UNIQUE").data] else [])
      ++ (if c.is_nullable = ("NO").data then [("NOT NULL").data] else [])
    let constraintsString :=
      if constraints.length > 0
      then (" (").data ++ joinWith ((", ").data) constraints ++ (")").data
      else []
    acc ++ ("  - `").data ++ c.column_name ++ ("` (").data ++ c.column_type
      ++ (")").data ++ constraintsString ++ ("\n").data) base
  let withFks :=
    if t.foreignKeys.length > 0 then
      t.foreignKeys.foldl (fun acc fk =>
        acc ++ ("    - `").data ++ fk.fk_column ++ ("` references `").data
          ++ fk.target_table ++ ("`(`").data ++ fk.target_column
          ++ ("`)\n").data)
        (withCols ++ ("  Relationships:\n").data)
    else withCols
  withFks ++ ("\n").data

inductive Provider where
  | postgresql : Provider
  | mysql : Provider
deriving DecidableEq

/-- Is the module-level `schemaCache` variable truthy (`null` and the empty
string are falsy)? -/
def cacheTruthy (cache : Option (List Char)) : Bool :=
  match cache with
  | some (_ :: _) => true
  | _ => false

/-- Result of one `getDatabaseSchema` call: the returned text, the new value of
the module-level `schemaCache`, and whether the database was introspected. -/
structure SchemaFetch where
  text : List Char
  cache : Option (List Char)
  introspected : Bool

/-- The introspection loop of `getDatabaseSchema` (introspector lines 14-38):
list the providers tables (skipping `_prisma_migrations` for PostgreSQL) and
concatenate the rendered table blocks. -/
def renderSchema (db : Db) (provider : Provider) : List Char :=
  match provider with
  | Provider.postgresql =>
    (db.pgTables.filter
        (fun t => t.tablename ≠ ("_prisma_migrations").data)).foldl
      (fun acc t => acc ++ getPostgresTableSchema t) []
  | Provider.mysql =>
    db.myTables.foldl (fun acc t => acc ++ getMysqlTableSchema t) []

/-- `getDatabaseSchema` (introspector lines 5-42) with the module-level
`schemaCache` passed and returned explicitly: the cache is consulted when
truthy and `forceRefresh` is false; otherwise the database is introspected and
the cache is overwritten with the rendered text. -/
def getDatabaseSchema (db : Db) (provider : Provider) (forceRefresh : Bool)
    (cache : Option (List Char)) : SchemaFetch :=
  if cacheTruthy cache && !forceRefresh then
    { text := cache.getD [], cache := cache, introspected := false }
  else
    { text := renderSchema db provider, cache := some (renderSchema db provider),
      introspected := true }

/-- `DEFAULT_COACH_PERSONA_PROMPT` (src/index.ts line 13). -/
def DEFAULT_COACH_PERSONA_PROMPT : List Char :=
  ("You are \"Ace,\" an expert AI coach for students preparing for competitive exams. Your tone is always encouraging, analytical, and focused on helping the student improve. You never just state data; you interpret it and provide insights. When you identify a weakness, you frame it constructively and suggest a clear, actionable next step. When you see a strength, you celebrate it and suggest how to leverage it.").data

/-- `GeminiModelNames` (src/index.ts lines 26-31); the names only select which
external model oracle serves each role. -/
structure GeminiModelNames where
  classifier : Option (List Char)
  sql : Option (List Char)
  coach : Option (List Char)
  chat : Option (List Char)

/-- `SquixOptions` (src/index.ts lines 36-39). -/
structure SquixOptions where
  models : Option GeminiModelNames
  defaultSystemPrompt : Option (List Char)

/-- `ChatOptions` (src/index.ts lines 44-46). -/
structure ChatOptions where
  systemPrompt : Option (List Char)

/-- `ConnectionParams` (src/index.ts lines 15-21): every field optional. -/
structure ConnectionParams where
  host : Option (List Char)
  port : Option Int
  user : Option (List Char)
  password : Option (List Char)
  database : Option (List Char)

/-- The `connection` argument of `connect`: a URL string or structured
parameters. -/
inductive Connection where
  | url (s : List Char) : Connection
  | params (p : ConnectionParams) : Connection

/-- The mutable fields of a `Squix` instance, plus the module-level
`schemaCache` of the introspector. -/
structure SquixState where
  prismaSet : Bool
  dbSchema : Option (List Char)
  provider : Option Provider
  defaultSystemPrompt : List Char
  schemaCache : Option (List Char)

/-- The `Squix` constructor (src/index.ts lines 63-79): `prisma`, `dbSchema`
and `provider` are definitely-assigned-later fields, so unset; the default
system prompt falls back to the coach persona. -/
def Squix.init (options : Option SquixOptions) : SquixState :=
  { prismaSet := false
    dbSchema := none
    provider := none
    defaultSystemPrompt :=
      (options.bind (fun o => o.defaultSystemPrompt)).getD
        DEFAULT_COACH_PERSONA_PROMPT
    schemaCache := none }

inductive ConnErr where
  | missingParams : ConnErr
  | connectFailed : ConnErr
deriving DecidableEq

/-- JavaScript falsiness of an optional string (`undefined` or `""`). -/
def optFalsyStr : Option (List Char) → Bool
  | none => true
  | some [] => true
  | some (_ :: _) => false

/-- JavaScript falsiness of an optional number (`undefined` or `0`). -/
def optFalsyInt : Option Int → Bool
  | none => true
  | some n => n == 0

/-- The guard `!host || !port || !user || !password || !database`
(src/index.ts line 98). -/
def paramsFalsy (p : ConnectionParams) : Bool :=
  optFalsyStr p.host || optFalsyInt p.port || optFalsyStr p.user
    || optFalsyStr p.password || optFalsyStr p.database

def providerScheme : Provider → List Char
  | Provider.postgresql => ("postgresql").data
  | Provider.mysql => ("mysql").data

def intToChars (n : Int) : List Char := (toString n).data

/-- `${provider}://${user}:${password}@${host}:${port}/${database}`
(src/index.ts line 103). -/
def buildUrl (provider : Provider) (p : ConnectionParams) : List Char :=
  providerScheme provider ++ ("://").data ++ p.user.getD [] ++ (":").data
    ++ p.password.getD [] ++ ("@").data ++ p.host.getD [] ++ (":").data
    ++ intToChars (p.port.getD 0) ++ ("/").data ++ p.database.getD []

/-- Lines 92-104 of `connect`: resolve the datasource URL or fail on an
incomplete structured parameter set. -/
def resolveDatasourceUrl (provider : Provider) (c : Connection) :
    Except ConnErr (List Char) :=
  match c with
  | Connection.url s => Except.ok s
  | Connection.params p =>
    if paramsFalsy p then Except.error ConnErr.missingParams
    else Except.ok (buildUrl provider p)

/-- The database collaborator: opening a connection either fails or yields the
introspectable database. -/
structure DbOracle where
  establish : List Char → Option Db

/-- Outcome of `connect`: the new instance state, success or failure, and the
URLs for which a client was created and a connection attempted. -/
structure ConnectResult where
  state : SquixState
  result : Except ConnErr Unit
  attemptedUrls : List (List Char)

/-- `connect` (src/index.ts lines 87-112): store the provider, resolve the
URL (failing fast on missing parameters), create the client and connect, then
eagerly populate `dbSchema` through the introspector cache. -/
def Squix.connect (st : SquixState) (provider : Provider) (conn : Connection)
    (oracle : DbOracle) : ConnectResult :=
  let st1 := { st with provider := some provider }
  match resolveDatasourceUrl provider conn with
  | Except.error e => { state := st1, result := Except.error e, attemptedUrls := [] }
  | Except.ok url =>
    let st2 := { st1 with prismaSet := true }
    match oracle.establish url with
    | none =>
      { state := st2, result := Except.error ConnErr.connectFailed,
        attemptedUrls := [url] }
    | some db =>
      let fetch := getDatabaseSchema db provider false st2.schemaCache
      { state :=
          { st2 with dbSchema := some fetch.text, schemaCache := fetch.cache }
        result := Except.ok ()
        attemptedUrls := [url] }

/-- The classification prompt template (src/index.ts lines 133-147). -/
def classificationPrompt (systemPrompt dbSchema userPrompt : List Char) :
    List Char :=
  ("\n      ").data ++ systemPrompt
    ++ ("\n\n      You are categorizing a user\x27s request based on their message and the database schema.\n      Respond with a valid JSON object with a key \"intent\". Possible values are:\n      1. \"database_query\": The user is asking for specific data.\n      2. \"strategic_advice\": The user is asking for a plan or advice based on data.\n      3. \"clarification_needed\": The request is ambiguous. You MUST also include a \"missing_info\" key.\n      4. \"general_chat\": The user is making a conversational request.\n\n      Database Schema: ").data
    ++ dbSchema ++ ("\n      User\x27s message: \"").data ++ userPrompt
    ++ ("\"\n\n      Respond with JSON only.\n    ").data

/-- The dialect-specific instruction block (src/index.ts lines 159-162). -/
def sqlDialectInstructions (provider : Option Provider) : List Char :=
  if provider = some Provider.mysql then
    ("- Use backticks for column/table names (e.g., `userId`).\n- Return valid MySQL syntax.").data
  else
    ("- Use double quotes for column/table names (e.g., \"userId\").\n- Return valid PostgreSQL syntax.").data

/-- The SQL generation prompt template (src/index.ts lines 164-178). -/
def sqlGenerationPrompt (provider : Option Provider)
    (dbSchema userPrompt : List Char) : List Char :=
  ("\n        You are an expert ").data
    ++ (if provider = some Provider.mysql then ("MySQL").data
        else ("PostgreSQL").data)
    ++ (" data analyst. Your task is to write a SINGLE SQL query to get the data needed to answer a user\x27s question.\n        \n        CRITICAL RULES:\n        - Write ONLY ONE SQL statement.\n        - Do NOT include a semicolon at the end.\n        ").data
    ++ sqlDialectInstructions provider
    ++ ("\n        \n        Schema: ").data ++ dbSchema
    ++ ("\n        User\x27s Question: \"").data ++ userPrompt
    ++ ("\"\n        \n        Respond with a JSON object with a single key \"query\" containing ONE SQL statement.\n      ").data

/-- The analysis (coach) prompt template (src/index.ts lines 191-203). -/
def analysisPrompt (systemPrompt userPrompt serializedResult : List Char) :
    List Char :=
  ("\n        ").data ++ systemPrompt
    ++ ("\n\n        A user asked: \"").data ++ userPrompt
    ++ ("\"\n        We ran a query and got this data:\n        ").data
    ++ serializedResult
    ++ ("\n\n        Your task is to act as their personal coach.\n        1. Directly answer their question using the data in a clear, friendly way.\n        2. Analyze the data to find one key insight (a strength or weakness).\n        3. Provide one piece of clear, actionable advice based on the insight.\n        4. Be conversational, encouraging, and concise. Interpret the numbers to make them meaningful.\n      ").data

/-- The general-chat prompt template (src/index.ts lines 215-219). -/
def generalChatPrompt (systemPrompt userPrompt : List Char) : List Char :=
  ("\n        ").data ++ systemPrompt
    ++ ("\n        The user sent the following message. Provide a short, encouraging, and conversational response in character.\n        User\x27s message: \"").data
    ++ userPrompt ++ ("\"\n      ").data

/-- The deterministic clarification template (src/index.ts lines 210-212):
embed `missing_info` when truthy, else the fixed fallback text. -/
def clarificationAnswer (missing_info : Option Json) : List Char :=
  let detail :=
    match missing_info with
    | some v => if jsTruthy v then jsToString v else ("more specific details").data
    | none => ("more specific details").data
  ("I can definitely help with that! To give you the best answer, could you please tell me ").data
    ++ detail ++ ("?").data

/-- Strict equality of a possibly-undefined JavaScript value with a string
literal (`intent === "database_query"`). -/
def jsEqStr (v : Option Json) (s : List Char) : Bool :=
  match v with
  | some (Json.str t) => t == s
  | _ => false

/-- The external model and database collaborators of one `chat` call, as
response oracles.  `runQuery` is `$queryRawUnsafe` composed with the
JSON round-trip that stringifies bigints (src/index.ts lines 181-189); its
output is the serialized result text fed to the analysis prompt. -/
structure LLMOracles where
  classifierModel : List Char → List Char
  sqlModel : List Char → List Char
  coachModel : List Char → List Char
  chatModel : List Char → List Char
  runQuery : List Char → List Char

/-- Which external model calls a `chat` invocation performed, in order. -/
inductive CallTag where
  | classifier : CallTag
  | sqlGen : CallTag
  | coach : CallTag
  | generalChat : CallTag
deriving DecidableEq

/-- Failures of one `chat` call. -/
inductive ChatErr where
  | notConnected : ChatErr
  | classifierParse (e : PErr) : ChatErr
  | sqlGen (e : GenErr) : ChatErr
deriving DecidableEq

/-- Outcome of one `chat` call: the returned string or the thrown error, the
model calls performed, and every SQL statement passed to the executor. -/
structure ChatResult where
  result : Except ChatErr (List Char)
  llmCalls : List CallTag
  executed : List (List Char)

/-- `chat` (src/index.ts lines 121-225): fail fast when not connected;
classify; route to the SQL pipeline, the clarification template, or the
conversational model. -/
def Squix.chat (st : SquixState) (userPrompt : List Char)
    (options : Option ChatOptions) (o : LLMOracles) : ChatResult :=
  if !(st.prismaSet && cacheTruthy st.dbSchema) then
    { result := Except.error ChatErr.notConnected, llmCalls := [], executed := [] }
  else
    let systemPrompt :=
      (options.bind (fun x => x.systemPrompt)).getD st.defaultSystemPrompt
    let schema := st.dbSchema.getD []
    let clsResponse :=
      o.classifierModel (classificationPrompt systemPrompt schema userPrompt)
    match parseIntelligentJson clsResponse with
    | Except.error e =>
      { result := Except.error (ChatErr.classifierParse e)
        llmCalls := [CallTag.classifier]
        executed := [] }
    | Except.ok parsed =>
      let intent := parsed.getField (("intent").data)
      let missing_info := parsed.getField (("missing_info").data)
      if jsEqStr intent (("database_query").data)
          || jsEqStr intent (("strategic_advice").data) then
        match getSQLFromLLM
            (o.sqlModel (sqlGenerationPrompt st.provider schema userPrompt)) with
        | Except.error e =>
          { result := Except.error (ChatErr.sqlGen e)
            llmCalls := [CallTag.classifier, CallTag.sqlGen]
            executed := [] }
        | Except.ok generatedQuery =>
          let serializableResult := o.runQuery generatedQuery
          let finalAnswer :=
            o.coachModel (analysisPrompt systemPrompt userPrompt serializableResult)
          { result := Except.ok finalAnswer
            llmCalls := [CallTag.classifier, CallTag.sqlGen, CallTag.coach]
            executed := [generatedQuery] }
      else if jsEqStr intent (("clarification_needed").data) then
        { result := Except.ok (clarificationAnswer missing_info)
          llmCalls := [CallTag.classifier]
          executed := [] }
      else
        { result :=
            Except.ok (o.chatModel (generalChatPrompt systemPrompt userPrompt))
          llmCalls := [CallTag.classifier, CallTag.generalChat]
          executed := [] }

/-- The character preceding a keyword occurrence that starts right after `x`,
when the character preceding the whole scanned suffix is `prev`. -/
def prevCharOf (prev : Option Char) (x : List Char) : Option Char :=
  match x.getLast? with
  | some c => some c
  | none => prev

/-- Specification-side predicate: the statement contains a case-insensitive
whole-word occurrence of the (uppercase) keyword — an occurrence whose ASCII
uppercasing is the keyword, not preceded and not followed by a word
character. -/
def containsWholeWordCI (kw s : List Char) : Prop :=
  ∃ x k y, s = x ++ k ++ y ∧ k.map asciiUpper = kw ∧
    (∀ c, x.getLast? = some c → isWordChar c = false) ∧
    (∀ c, y.head? = some c → isWordChar c = false)

/-- Drop trailing whitespace (the second half of `String.prototype.trim`). -/
def dropTrailingWS (l : List Char) : List Char :=
  (l.reverse.dropWhile isWS).reverse

/-- Specification-side predicate: free-text commentary around a fenced JSON
object — text containing no brace and no backtick. -/
def commentaryFree (l : List Char) : Prop :=
  ∀ c ∈ l, c ≠ '\x7b' ∧ c ≠ '\x7d' ∧ c ≠ '\x60'

/-- Is the position right after `a` a multiline line start, when the position
right before `a` has line-start status `s`? -/
def lineStart (s : Bool) (a : List Char) : Bool :=
  match a.getLast? with
  | none => s
  | some c => c = '\n'

theorem isWordChar_asciiUpper (c : Char) :
    isWordChar (asciiUpper c) = isWordChar c := by
  unfold asciiUpper
  split <;> rfl

theorem prevCharOf_cons (prev : Option Char) (c : Char) (x : List Char) :
    prevCharOf prev (c :: x) = prevCharOf (some c) x := by
  cases x with
  | nil => rfl
  | cons y ys =>
    simp only [prevCharOf, List.getLast?_cons_cons]
    cases h : (y :: ys).getLast?
    · exact absurd h (by simp)
    · rfl

theorem wbAux_eq_true_iff (kw : List Char) (hkw : kw ≠ []) :
    ∀ (s : List Char) (prev : Option Char),
      wbAux kw prev s = true ↔
        ∃ x y, s = x ++ kw ++ y ∧
          boundaryBefore (prevCharOf prev x) = true ∧ boundaryAfter y = true := by
  intro s
  induction s with
  | nil =>
    intro prev
    simp only [wbAux]
    constructor
    · intro h
      exfalso
      rcases kw with _ | ⟨k, ks⟩
      · exact hkw rfl
      · simp [List.isPrefixOf] at h
    · rintro ⟨x, y, hxy, -, -⟩
      exfalso
      have hlen := congrArg List.length hxy
      have hk : 0 < kw.length := List.length_pos.mpr hkw
      simp at hlen
      omega
  | cons c rest ih =>
    intro prev
    simp only [wbAux, Bool.or_eq_true, Bool.and_eq_true]
    rw [ih (some c)]
    constructor
    · rintro (⟨⟨hpre, hb⟩, ha⟩ | ⟨x, y, hxy, hb, ha⟩)
      · rw [List.isPrefixOf_iff_prefix] at hpre
        rcases hpre with ⟨y, hy⟩
        refine ⟨[], y, by simp [hy.symm], ?_, ?_⟩
        · simpa [prevCharOf] using hb
        · rwa [← hy, List.drop_left] at ha
      · exact ⟨c :: x, y, by simp [hxy], by rwa [prevCharOf_cons], ha⟩
    · rintro ⟨x, y, hxy, hb, ha⟩
      rcases x with _ | ⟨x₀, x'⟩
      · left
        simp only [List.nil_append] at hxy
        constructor
        · constructor
          · rw [List.isPrefixOf_iff_prefix]
            exact ⟨y, hxy.symm⟩
          · simpa [prevCharOf] using hb
        · rw [hxy, List.drop_left]
          exact ha
      · right
        simp only [List.cons_append, List.cons.injEq] at hxy
        obtain ⟨hc, hrest⟩ := hxy
        subst hc
        refine ⟨x', y, hrest, ?_, ha⟩
        rw [← prevCharOf_cons prev]
        exact hb

theorem wbTest_eq_true_iff (kw : List Char) (hkw : kw ≠ []) (s : List Char) :
    wbTest kw s = true ↔
      ∃ x y, s = x ++ kw ++ y ∧
        (∀ c, x.getLast? = some c → isWordChar c = false) ∧
        (∀ c, y.head? = some c → isWordChar c = false) := by
  rw [wbTest, wbAux_eq_true_iff kw hkw]
  constructor
  · rintro ⟨x, y, hxy, hb, ha⟩
    refine ⟨x, y, hxy, ?_, ?_⟩
    · intro c hc
      unfold prevCharOf at hb
      rw [hc] at hb
      simpa [boundaryBefore] using hb
    · intro c hc
      cases y with
      | nil => simp at hc
      | cons y₀ ys =>
        simp at hc
        subst hc
        simpa [boundaryAfter] using ha
  · rintro ⟨x, y, hxy, hb, ha⟩
    refine ⟨x, y, hxy, ?_, ?_⟩
    · unfold prevCharOf
      cases hlast : x.getLast? with
      | none => rfl
      | some c => simpa [boundaryBefore] using hb c hlast
    · cases y with
      | nil => rfl
      | cons y₀ ys => simpa [boundaryAfter] using ha y₀ rfl

theorem wbTest_upper_iff (kw s : List Char) (hkw : kw ≠ []) :
    wbTest kw (s.map asciiUpper) = true ↔ containsWholeWordCI kw s := by
  rw [wbTest_eq_true_iff kw hkw]
  constructor
  · rintro ⟨x, y, hxy, hb, ha⟩
    rw [List.map_eq_append_iff] at hxy
    rcases hxy with ⟨s₁, s₂, hs, hx, hrest⟩
    rw [List.map_eq_append_iff] at hx
    rcases hx with ⟨x', k, hs₁, hx', hk⟩
    refine ⟨x', k, s₂, by rw [hs, hs₁], hk, ?_, ?_⟩
    · intro c hc
      have hxl : x.getLast? = some (asciiUpper c) := by
        rw [← hx', List.getLast?_map, hc]
        rfl
      have h2 := hb _ hxl
      rwa [isWordChar_asciiUpper] at h2
    · intro c hc
      have hyl : y.head? = some (asciiUpper c) := by
        rw [← hrest, List.head?_map, hc]
        rfl
      have h2 := ha _ hyl
      rwa [isWordChar_asciiUpper] at h2
  · rintro ⟨x, k, y, hxy, hk, hb, ha⟩
    refine ⟨x.map asciiUpper, y.map asciiUpper, ?_, ?_, ?_⟩
    · rw [hxy]
      simp [hk]
    · intro c hc
      rw [List.getLast?_map] at hc
      cases hlast : x.getLast? with
      | none => rw [hlast] at hc; simp at hc
      | some d =>
        rw [hlast] at hc
        simp at hc
        rw [← hc, isWordChar_asciiUpper]
        exact hb d hlast
    · intro c hc
      rw [List.head?_map] at hc
      cases hhead : y.head? with
      | none => rw [hhead] at hc; simp at hc
      | some d =>
        rw [hhead] at hc
        simp at hc
        rw [← hc, isWordChar_asciiUpper]
        exact ha d hhead

theorem isWordChar_eq_false_of_isWS (c : Char) (h : isWS c = true) :
    isWordChar c = false := by
  simp only [isWS, Bool.or_eq_true, decide_eq_true_eq] at h
  rcases h with ((((h | h) | h) | h) | h) | h <;> subst h <;> rfl

theorem trim_split (l : List Char) :
    ∃ a b, l = (a ++ trimList l) ++ b ∧
      (∀ c ∈ a, isWS c = true) ∧ (∀ c ∈ b, isWS c = true) := by
  refine ⟨l.takeWhile isWS, ((l.dropWhile isWS).reverse.takeWhile isWS).reverse,
    ?_, ?_, ?_⟩
  · unfold trimList
    conv_lhs => rw [← List.takeWhile_append_dropWhile isWS l]
    conv_lhs => rw [← List.reverse_reverse (l.dropWhile isWS)]
    conv_lhs => rw [← List.takeWhile_append_dropWhile isWS (l.dropWhile isWS).reverse]
    rw [List.reverse_append]
    simp [List.append_assoc]
  · intro c hc
    exact List.mem_takeWhile_imp hc
  · intro c hc
    rw [List.mem_reverse] at hc
    exact List.mem_takeWhile_imp hc

theorem strip_split (l : List Char) :
    ∃ b, l = stripSemiSuffix l ++ b ∧ (∀ c ∈ b, isWS c = true ∨ c = ';') := by
  simp only [stripSemiSuffix]
  split
  · exact ⟨[], by simp, by simp⟩
  · refine ⟨((l.reverse.dropWhile isWS).takeWhile (fun c => c = ';')).reverse
        ++ (l.reverse.takeWhile isWS).reverse, ?_, ?_⟩
    · have h1 : l.reverse = List.takeWhile isWS l.reverse
          ++ List.dropWhile isWS l.reverse :=
        (List.takeWhile_append_dropWhile _ _).symm
      have h2 : List.dropWhile isWS l.reverse
          = List.takeWhile (fun c => decide (c = ';')) (List.dropWhile isWS l.reverse)
            ++ List.dropWhile (fun c => decide (c = ';')) (List.dropWhile isWS l.reverse) :=
        (List.takeWhile_append_dropWhile _ _).symm
      conv_lhs => rw [← List.reverse_reverse l, h1, h2]
      simp only [List.reverse_append, List.append_assoc]
    · intro c hc
      rcases List.mem_append.mp hc with h | h
      · rw [List.mem_reverse] at h
        have := List.mem_takeWhile_imp h
        right
        simpa using this
      · rw [List.mem_reverse] at h
        exact Or.inl (List.mem_takeWhile_imp h)

theorem cleanSQL_decomposition (q : List Char) :
    ∃ w₁ w₂, q = (w₁ ++ cleanSQL q) ++ w₂ ∧
      (∀ c ∈ w₁, isWS c = true) ∧
      (∀ c ∈ w₂, isWS c = true ∨ c = ';') := by
  obtain ⟨a, b, hl, ha, hb⟩ := trim_split q
  obtain ⟨b', hs, hb'⟩ := strip_split (trimList q)
  refine ⟨a, b' ++ b, ?_, ha, ?_⟩
  · conv_lhs => rw [hl, hs]
    unfold cleanSQL
    simp [List.append_assoc]
  · intro c hc
    rcases List.mem_append.mp hc with h | h
    · exact hb' c h
    · exact Or.inl (hb c h)

theorem containsWholeWordCI_of_clean (kw q : List Char)
    (h : containsWholeWordCI kw (cleanSQL q)) : containsWholeWordCI kw q := by
  obtain ⟨w₁, w₂, hq, hw₁, hw₂⟩ := cleanSQL_decomposition q
  obtain ⟨x, k, y, hm, hk, hb, ha⟩ := h
  refine ⟨w₁ ++ x, k, y ++ w₂, ?_, hk, ?_, ?_⟩
  · rw [hq, hm]
    simp only [List.append_assoc]
  · intro c hc
    rw [List.getLast?_append] at hc
    cases hx : x.getLast? with
    | some d =>
      rw [hx, Option.or_some] at hc
      exact hb c (by rw [hx, ← hc])
    | none =>
      rw [hx] at hc
      simp only [Option.or] at hc
      exact isWordChar_eq_false_of_isWS c (hw₁ c (List.mem_of_getLast?_eq_some hc))
  · intro c hc
    rw [List.head?_append] at hc
    cases hy : y.head? with
    | some d =>
      rw [hy, Option.or_some] at hc
      exact ha c (by rw [hy, ← hc])
    | none =>
      rw [hy] at hc
      simp only [Option.or] at hc
      have hcmem : c ∈ w₂ := by
        rw [List.head?_eq_some_iff] at hc
        obtain ⟨ys, hys⟩ := hc
        rw [hys]
        exact List.mem_cons_self c ys
      rcases hw₂ c hcmem with hws | hsemi
      · exact isWordChar_eq_false_of_isWS c hws
      · subst hsemi
        rfl

theorem containsWholeWordCI_clean_of (kw q : List Char) (hkw : kw ≠ [])
    (hword : ∀ c ∈ kw, isWordChar c = true)
    (h : containsWholeWordCI kw q) : containsWholeWordCI kw (cleanSQL q) := by
  obtain ⟨w₁, w₂, hq, hw₁, hw₂⟩ := cleanSQL_decomposition q
  obtain ⟨x, k, y, hocc, hk, hb, ha⟩ := h
  have hkne : k ≠ [] := by
    intro hnil
    rw [hnil] at hk
    exact hkw (by simpa using hk.symm)
  have hkword : ∀ c ∈ k, isWordChar c = true := by
    intro c hc
    have hmem : asciiUpper c ∈ kw := by
      rw [← hk]
      exact List.mem_map_of_mem asciiUpper hc
    have := hword _ hmem
    rwa [isWordChar_asciiUpper] at this
  have hw₂' : ∀ c ∈ w₂, isWordChar c = false := by
    intro c hc
    rcases hw₂ c hc with hws | hsemi
    · exact isWordChar_eq_false_of_isWS c hws
    · subst hsemi
      rfl
  -- Step A: the occurrence starts at or after the end of the leading blanks.
  have hpx : x <+: q := ⟨k ++ y, by rw [hocc]; simp [List.append_assoc]⟩
  have hpw : w₁ <+: q :=
    ⟨cleanSQL q ++ w₂, by conv_rhs => rw [hq]; simp [List.append_assoc]⟩
  have hx' : ∃ x', x = w₁ ++ x' := by
    rcases List.prefix_or_prefix_of_prefix hpx hpw with hxw | hwx
    · obtain ⟨r, hr⟩ := hxw
      rcases r with _ | ⟨r₀, r'⟩
      · exact ⟨[], by simp at hr; rw [hr]; simp⟩
      · exfalso
        have heq : (x ++ k) ++ y = (w₁ ++ cleanSQL q) ++ w₂ := by
          rw [← hocc, ← hq]
        rw [← hr] at heq
        simp only [List.append_assoc] at heq
        have hky := List.append_cancel_left heq
        rcases k with _ | ⟨k₀, kt⟩
        · exact hkne rfl
        · simp only [List.cons_append, List.cons.injEq] at hky
          have hword₀ : isWordChar k₀ = true :=
            hkword k₀ (List.mem_cons_self _ _)
          have hmem₀ : r₀ ∈ w₁ := by
            rw [← hr]
            exact List.mem_append_right x (List.mem_cons_self _ _)
          have := isWordChar_eq_false_of_isWS r₀ (hw₁ r₀ hmem₀)
          rw [hky.1] at hword₀
          rw [hword₀] at this
          exact Bool.noConfusion this
    · obtain ⟨x', hwx'⟩ := hwx
      exact ⟨x', hwx'.symm⟩
  obtain ⟨x', hx⟩ := hx'
  -- Step B: cancel the leading blanks.
  have hmid : x' ++ (k ++ y) = cleanSQL q ++ w₂ := by
    have heq : (x ++ k) ++ y = (w₁ ++ cleanSQL q) ++ w₂ := by
      rw [← hocc, ← hq]
    rw [hx] at heq
    simp only [List.append_assoc] at heq
    exact List.append_cancel_left heq
  -- Step C: the occurrence ends at or before the start of the trailing junk.
  have hsy : y <:+ x' ++ (k ++ y) := ⟨x' ++ k, by simp [List.append_assoc]⟩
  have hsw : w₂ <:+ x' ++ (k ++ y) := ⟨cleanSQL q, by rw [hmid]⟩
  have hy' : ∃ y', y = y' ++ w₂ := by
    rcases List.suffix_or_suffix_of_suffix hsy hsw with hyw | hwy
    · obtain ⟨r, hr⟩ := hyw
      rcases r with _ | ⟨r₀, r'⟩
      · exact ⟨[], by simp at hr; rw [hr]; simp⟩
      · exfalso
        have heq2 : (x' ++ k) ++ y = (cleanSQL q ++ (r₀ :: r')) ++ y := by
          rw [← hr] at hmid
          simp only [List.append_assoc] at hmid ⊢
          exact hmid
        have hxk := List.append_cancel_right heq2
        have hlast : (x' ++ k).getLast? = k.getLast? := by
          rw [List.getLast?_append]
          cases hkl : k.getLast? with
          | none => exact absurd (List.getLast?_eq_none_iff.mp hkl) hkne
          | some d => rfl
        have hlast2 : (cleanSQL q ++ (r₀ :: r')).getLast? = (r₀ :: r').getLast? := by
          rw [List.getLast?_append]
          cases hrl : (r₀ :: r').getLast? with
          | none => simp at hrl
          | some d => rfl
        rcases hkl : k.getLast? with _ | kl
        · exact hkne (List.getLast?_eq_none_iff.mp hkl)
        · have hrkl : (r₀ :: r').getLast? = some kl := by
            rw [← hlast2, ← hxk, hlast, hkl]
          have hklw : isWordChar kl = true :=
            hkword kl (List.mem_of_getLast?_eq_some hkl)
          have hklmem : kl ∈ w₂ := by
            have : kl ∈ (r₀ :: r') := List.mem_of_getLast?_eq_some hrkl
            rw [← hr]
            exact List.mem_append_left y this
          rw [hw₂' kl hklmem] at hklw
          exact absurd hklw (by simp)
    · obtain ⟨y', hwy'⟩ := hwy
      exact ⟨y', hwy'.symm⟩
  obtain ⟨y', hy⟩ := hy'
  -- Assemble the occurrence inside the cleaned statement.
  have hmeq : cleanSQL q = (x' ++ k) ++ y' := by
    rw [hy] at hmid
    have : ((x' ++ k) ++ y') ++ w₂ = cleanSQL q ++ w₂ := by
      simp only [List.append_assoc] at hmid ⊢
      exact hmid
    exact (List.append_cancel_right this).symm
  refine ⟨x', k, y', hmeq, hk, ?_, ?_⟩
  · intro c hc
    apply hb
    rw [hx, List.getLast?_append, hc, Option.or_some]
  · intro c hc
    apply ha
    rw [hy, List.head?_append, hc, Option.or_some]

theorem dangerousKeywords_ne_nil : ∀ kw ∈ dangerousKeywords, kw ≠ [] := by
  decide

theorem dangerousKeywords_wordChars :
    ∀ kw ∈ dangerousKeywords, ∀ c ∈ kw, isWordChar c = true := by
  decide

/-- C2: for every candidate SQL string that still contains a bare `;` before
its final character after cleaning, the validator rejects it with the
multi-statement SQL-safety error instead of returning a statement. -/
theorem claim_C2 (q u v : List Char) (h : cleanSQL q = (u ++ [';']) ++ v)
    (hv : v ≠ []) :
    validateSQLCandidate q = Except.error GenErr.injection := by
  have hmem : ';' ∈ cleanSQL q := by
    rw [h]
    simp
  have hcont : (cleanSQL q).contains ';' = true := by
    rw [List.contains_iff_exists_mem_beq]
    exact ⟨';', hmem, by simp⟩
  unfold validateSQLCandidate
  simp only [hcont]
  rfl

/-- Witness for C2 at the specification example `SELECT 1; DROP TABLE users`. -/
theorem claim_C2_witness :
    validateSQLCandidate (("SELECT 1; DROP TABLE users").data)
      = Except.error GenErr.injection :=
  claim_C2 (("SELECT 1; DROP TABLE users").data) (("SELECT 1").data)
    ((" DROP TABLE users").data) (by decide) (by decide)

/-- C3: for a candidate with no remaining statement separator, the validator
rejects exactly when the candidate contains a case-insensitive whole-word
occurrence of one of the ten denylisted keywords. -/
theorem claim_C3 (q : List Char) (h : (cleanSQL q).contains ';' = false) :
    (∃ e, validateSQLCandidate q = Except.error e) ↔
      ∃ kw ∈ dangerousKeywords, containsWholeWordCI kw q := by
  unfold validateSQLCandidate
  simp only [h]
  cases hfind : dangerousKeywords.find?
      (fun kw => wbTest kw ((cleanSQL q).map asciiUpper)) with
  | some kw =>
    simp only [Bool.false_eq_true, if_false]
    constructor
    · intro _
      have hmem := List.mem_of_find?_eq_some hfind
      have htest := List.find?_some hfind
      refine ⟨kw, hmem, containsWholeWordCI_of_clean kw q ?_⟩
      exact (wbTest_upper_iff kw (cleanSQL q)
        (dangerousKeywords_ne_nil kw hmem)).mp htest
    · intro _
      exact ⟨GenErr.dangerous kw, rfl⟩
  | none =>
    simp only [Bool.false_eq_true, if_false]
    constructor
    · rintro ⟨e, he⟩
      exact absurd he (by simp)
    · rintro ⟨kw, hmem, hocc⟩
      exfalso
      have hclean := containsWholeWordCI_clean_of kw q
        (dangerousKeywords_ne_nil kw hmem)
        (dangerousKeywords_wordChars kw hmem) hocc
      have htest := (wbTest_upper_iff kw (cleanSQL q)
        (dangerousKeywords_ne_nil kw hmem)).mpr hclean
      have := List.find?_eq_none.mp hfind kw hmem
      exact this htest

/-- Witness for C3 at the specification examples: `UPDATE users SET x=1` is
rejected, while `Update_flag` inside an identifier is accepted. -/
theorem claim_C3_witness :
    (∃ e, validateSQLCandidate (("UPDATE users SET x=1").data) = Except.error e)
    ∧ validateSQLCandidate
        (("select * from users where id=1 and Update_flag=1").data)
      = Except.ok (("select * from users where id=1 and Update_flag=1").data) := by
  constructor
  · refine (claim_C3 (("UPDATE users SET x=1").data) (by decide)).mpr ?_
    refine ⟨("UPDATE").data, by decide, [], ("UPDATE").data,
      ((" users SET x=1").data), by decide, by decide, ?_, ?_⟩
    · intro c hc
      simp at hc
    · intro c hc
      simp only [List.head?] at hc
      cases hc
      rfl
  · rfl

theorem getSQLFromLLM_ok (t q : List Char) (h : getSQLFromLLM t = Except.ok q) :
    ∃ j raw, parseIntelligentJson t = Except.ok j
      ∧ j.getField (("query").data) = some (Json.str raw)
      ∧ q = cleanSQL raw
      ∧ q.contains ';' = false
      ∧ ∀ kw ∈ dangerousKeywords, ¬ containsWholeWordCI kw q := by
  unfold getSQLFromLLM at h
  cases hp : parseIntelligentJson t with
  | error e =>
    rw [hp] at h
    cases e <;> simp at h
  | ok j =>
    rw [hp] at h
    dsimp only at h
    cases hf : j.getField (("query").data) with
    | none => rw [hf] at h; simp at h
    | some v =>
      rw [hf] at h
      cases v with
      | str raw =>
        dsimp only at h
        by_cases hemp : raw.isEmpty
        · rw [if_pos hemp] at h
          simp at h
        · rw [if_neg hemp] at h
          unfold validateSQLCandidate at h
          by_cases hcont : (cleanSQL raw).contains ';'
          · rw [if_pos hcont] at h
            simp at h
          · rw [if_neg hcont] at h
            cases hfind : dangerousKeywords.find?
                (fun kw => wbTest kw ((cleanSQL raw).map asciiUpper)) with
            | some kw => rw [hfind] at h; simp at h
            | none =>
              rw [hfind] at h
              simp only [Except.ok.injEq] at h
              subst h
              refine ⟨j, raw, rfl, hf, rfl, by simpa using hcont, ?_⟩
              intro kw hmem hocc
              have hclean := containsWholeWordCI_clean_of kw raw
                (dangerousKeywords_ne_nil kw hmem)
                (dangerousKeywords_wordChars kw hmem)
                (containsWholeWordCI_of_clean kw raw
                  (by
                    -- the occurrence is already inside the cleaned statement
                    exact hocc))
              have htest := (wbTest_upper_iff kw (cleanSQL raw)
                (dangerousKeywords_ne_nil kw hmem)).mpr hclean
              exact List.find?_eq_none.mp hfind kw hmem htest
      | null => simp at h
      | bool b => simp at h
      | num l => simp at h
      | arr xs => simp at h
      | obj fs => simp at h

/-- C1: any statement a `chat` call passes to the executor is the model
response\x27s `query` text trimmed and stripped of trailing terminators, contains
no `;`, and contains no case-insensitive whole-word denylisted keyword — no
code path hands the executor a statement that skipped the validator chain. -/
theorem claim_C1 (st : SquixState) (userPrompt : List Char)
    (options : Option ChatOptions) (o : LLMOracles) (q : List Char)
    (hq : q ∈ (Squix.chat st userPrompt options o).executed) :
    ∃ j raw,
      parseIntelligentJson (o.sqlModel (sqlGenerationPrompt st.provider
          (st.dbSchema.getD []) userPrompt)) = Except.ok j
      ∧ j.getField (("query").data) = some (Json.str raw)
      ∧ q = cleanSQL raw
      ∧ q.contains ';' = false
      ∧ ∀ kw ∈ dangerousKeywords, ¬ containsWholeWordCI kw q := by
  unfold Squix.chat at hq
  dsimp only at hq
  split at hq
  · simp at hq
  · split at hq
    · simp at hq
    · split at hq
      · split at hq
        · simp at hq
        · next gq hgen =>
            simp only [List.mem_singleton] at hq
            subst hq
            exact getSQLFromLLM_ok _ _ hgen
      · split at hq
        · simp at hq
        · simp at hq

/-- Witness for C1: a concrete connected state and oracles on which a
statement is executed, and that statement satisfies every validator
guarantee. -/
theorem claim_C1_witness :
    (("SELECT 1").data).contains ';' = false
    ∧ ∀ kw ∈ dangerousKeywords, ¬ containsWholeWordCI kw (("SELECT 1").data) := by
  have h := claim_C1
    { prismaSet := true
      dbSchema := some (("T").data)
      provider := some Provider.postgresql
      defaultSystemPrompt := []
      schemaCache := none }
    [] none
    { classifierModel := fun _ => ("\x7b\"intent\":\"database_query\"\x7d").data
      sqlModel := fun _ => ("\x7b\"query\":\"SELECT 1\"\x7d").data
      coachModel := fun _ => ("ok").data
      chatModel := fun _ => ("hi").data
      runQuery := fun _ => ("[]").data }
    (("SELECT 1").data) (by decide)
  obtain ⟨j, raw, hp, hf, hclean, hsem, hkw⟩ := h
  exact ⟨hsem, hkw⟩

/-- C6: when the classification response cannot be reduced to valid structured
data, `chat` propagates the parse failure: no default intent is substituted
and no query, clarification, or chat branch runs. -/
theorem claim_C6 (st : SquixState) (userPrompt : List Char)
    (options : Option ChatOptions) (o : LLMOracles) (e : PErr)
    (hconn : (st.prismaSet && cacheTruthy st.dbSchema) = true)
    (hparse : parseIntelligentJson (o.classifierModel (classificationPrompt
        ((options.bind (fun x => x.systemPrompt)).getD st.defaultSystemPrompt)
        (st.dbSchema.getD []) userPrompt)) = Except.error e) :
    Squix.chat st userPrompt options o =
      { result := Except.error (ChatErr.classifierParse e)
        llmCalls := [CallTag.classifier]
        executed := [] } := by
  unfold Squix.chat
  rw [hconn]
  simp only [Bool.not_true, Bool.false_eq_true, if_false]
  rw [hparse]

/-- Witness for C6: a classifier response with no JSON object aborts the call
with the propagated parse failure. -/
theorem claim_C6_witness :
    Squix.chat
      { prismaSet := true
        dbSchema := some (("T").data)
        provider := some Provider.postgresql
        defaultSystemPrompt := []
        schemaCache := none }
      [] none
      { classifierModel := fun _ => ("no structure here").data
        sqlModel := fun _ => []
        coachModel := fun _ => []
        chatModel := fun _ => []
        runQuery := fun _ => [] }
      = { result := Except.error (ChatErr.classifierParse PErr.noJsonObject)
          llmCalls := [CallTag.classifier]
          executed := [] } :=
  claim_C6 _ _ _ _ PErr.noJsonObject (by decide) (by rfl)

/-- C7: when the classifier yields intent `clarification_needed`, the answer
is the fixed template rendered around `missing_info`, the classifier is the
only model called, and no SQL statement is generated or executed. -/
theorem claim_C7 (st : SquixState) (userPrompt : List Char)
    (options : Option ChatOptions) (o : LLMOracles) (j : Json)
    (hconn : (st.prismaSet && cacheTruthy st.dbSchema) = true)
    (hparse : parseIntelligentJson (o.classifierModel (classificationPrompt
        ((options.bind (fun x => x.systemPrompt)).getD st.defaultSystemPrompt)
        (st.dbSchema.getD []) userPrompt)) = Except.ok j)
    (hintent : j.getField (("intent").data)
      = some (Json.str (("clarification_needed").data))) :
    Squix.chat st userPrompt options o =
      { result :=
          Except.ok (clarificationAnswer (j.getField (("missing_info").data)))
        llmCalls := [CallTag.classifier]
        executed := [] } := by
  unfold Squix.chat
  rw [hconn]
  simp only [Bool.not_true, Bool.false_eq_true, if_false]
  rw [hparse]
  dsimp only
  rw [hintent]
  rw [if_neg (by decide)]
  rw [if_pos (by decide)]

/-- Witness for C7: a concrete clarification classification renders the
deterministic template around the returned `missing_info` text. -/
theorem claim_C7_witness :
    Squix.chat
      { prismaSet := true
        dbSchema := some (("T").data)
        provider := some Provider.postgresql
        defaultSystemPrompt := []
        schemaCache := none }
      [] none
      { classifierModel := fun _ =>
          ("\x7b\"intent\":\"clarification_needed\",\"missing_info\":\"which exam you mean\"\x7d").data
        sqlModel := fun _ => []
        coachModel := fun _ => []
        chatModel := fun _ => []
        runQuery := fun _ => [] }
      = { result := Except.ok
            (("I can definitely help with that! To give you the best answer, could you please tell me which exam you mean?").data)
          llmCalls := [CallTag.classifier]
          executed := [] } := by
  rw [claim_C7 _ _ _ _
    (Json.obj
      [((("intent").data), Json.str (("clarification_needed").data)),
       ((("missing_info").data), Json.str (("which exam you mean").data))])
    (by decide) (by rfl) (by rfl)]
  rfl

/-- C9: calling `chat` on a freshly constructed agent, before any `connect`,
fails with the not-connected error for every utterance, options value and
oracle behaviour, and performs no model call and no query. -/
theorem claim_C9 (opts : Option SquixOptions) (userPrompt : List Char)
    (options : Option ChatOptions) (o : LLMOracles) :
    Squix.chat (Squix.init opts) userPrompt options o =
      { result := Except.error ChatErr.notConnected
        llmCalls := []
        executed := [] } :=
  rfl

theorem cacheTruthy_some_iff (l : List Char) :
    cacheTruthy (some l) = true ↔ l ≠ [] := by
  cases l <;> simp [cacheTruthy]

/-- C5 as stated fails on the code: when the rendered schema text is empty
(here: a PostgreSQL database whose only listed table is `_prisma_migrations`),
the cached empty string is falsy, so a second `getSchema(forceRefresh=false)`
call introspects the database again instead of answering from the cache. -/
theorem claim_C5_counterexample :
    (getDatabaseSchema
        { pgTables := [{ tablename := ("_prisma_migrations").data,
                         columns := [], foreignKeys := [] }], myTables := [] }
        Provider.postgresql false none).introspected = true
    ∧ (getDatabaseSchema
        { pgTables := [{ tablename := ("_prisma_migrations").data,
                         columns := [], foreignKeys := [] }], myTables := [] }
        Provider.postgresql false
        (getDatabaseSchema
          { pgTables := [{ tablename := ("_prisma_migrations").data,
                           columns := [], foreignKeys := [] }], myTables := [] }
          Provider.postgresql false none).cache).introspected = true :=
  ⟨rfl, rfl⟩

/-- C5 amended: two consecutive `getSchema(forceRefresh=false)` calls always
return identical schema text, and whenever the first call returns a non-empty
text the second call is answered from the cache without introspecting; only
when the rendered text is empty (a falsy cache entry) does the second call
introspect again. -/
theorem claim_C5_amended (db : Db) (provider : Provider)
    (cache : Option (List Char)) :
    ((getDatabaseSchema db provider false
        (getDatabaseSchema db provider false cache).cache).text
      = (getDatabaseSchema db provider false cache).text)
    ∧ ((getDatabaseSchema db provider false cache).text ≠ [] →
        (getDatabaseSchema db provider false
          (getDatabaseSchema db provider false cache).cache).introspected
          = false) := by
  by_cases h : cacheTruthy cache = true
  · have h1 : getDatabaseSchema db provider false cache
        = { text := cache.getD [], cache := cache, introspected := false } := by
      unfold getDatabaseSchema
      rw [h]
      rfl
    rw [h1]
    dsimp only
    rw [h1]
    exact ⟨rfl, fun _ => rfl⟩
  · have h1 : getDatabaseSchema db provider false cache
        = { text := renderSchema db provider
            cache := some (renderSchema db provider)
            introspected := true } := by
      unfold getDatabaseSchema
      rw [Bool.not_false, Bool.and_true]
      rw [if_neg h]
    rw [h1]
    dsimp only
    by_cases ht : renderSchema db provider = []
    · have h2 : getDatabaseSchema db provider false
          (some (renderSchema db provider))
          = { text := renderSchema db provider
              cache := some (renderSchema db provider)
              introspected := true } := by
        unfold getDatabaseSchema
        rw [Bool.not_false, Bool.and_true]
        rw [if_neg]
        intro hc
        exact ((cacheTruthy_some_iff _).mp hc) ht
      rw [h2]
      exact ⟨rfl, fun hne => absurd ht hne⟩
    · have h2 : getDatabaseSchema db provider false
          (some (renderSchema db provider))
          = { text := (some (renderSchema db provider)).getD []
              cache := some (renderSchema db provider)
              introspected := false } := by
        unfold getDatabaseSchema
        rw [(cacheTruthy_some_iff _).mpr ht]
        rfl
      rw [h2]
      exact ⟨rfl, fun _ => rfl⟩

/-- Witness for C5 (amended): on a database with one real table the second
call is served from the cache without introspection. -/
theorem claim_C5_witness :
    (getDatabaseSchema
        { pgTables := [{ tablename := ("users").data,
                         columns := [{ column_name := ("id").data,
                                       data_type := ("integer").data,
                                       is_nullable := ("NO").data }],
                         foreignKeys := [] }], myTables := [] }
        Provider.postgresql false
        (getDatabaseSchema
          { pgTables := [{ tablename := ("users").data,
                           columns := [{ column_name := ("id").data,
                                         data_type := ("integer").data,
                                         is_nullable := ("NO").data }],
                           foreignKeys := [] }], myTables := [] }
          Provider.postgresql false none).cache).introspected = false :=
  (claim_C5_amended
    { pgTables := [{ tablename := ("users").data,
                     columns := [{ column_name := ("id").data,
                                   data_type := ("integer").data,
                                   is_nullable := ("NO").data }],
                     foreignKeys := [] }], myTables := [] }
    Provider.postgresql none).2 (by decide)

theorem connect_params_falsy (st : SquixState) (provider : Provider)
    (p : ConnectionParams) (oracle : DbOracle)
    (hf : paramsFalsy p = true) :
    Squix.connect st provider (Connection.params p) oracle
      = { state := { st with provider := some provider }
          result := Except.error ConnErr.missingParams
          attemptedUrls := [] } := by
  unfold Squix.connect resolveDatasourceUrl
  dsimp only
  rw [hf]
  rfl

/-- C8 as stated fails on the code: a structured connection in which all five
fields are present but `host` is the empty string is rejected with the
missing-parameters error before any connection attempt, even though no field
is missing. -/
theorem claim_C8_counterexample :
    (({ host := some [], port := some 5432, user := some (("u").data),
        password := some (("p").data), database := some (("d").data) }
          : ConnectionParams).host.isSome = true
      ∧ ({ host := some [], port := some 5432, user := some (("u").data),
           password := some (("p").data), database := some (("d").data) }
             : ConnectionParams).port.isSome = true)
    ∧ (Squix.connect (Squix.init none) Provider.postgresql
        (Connection.params
          { host := some [], port := some 5432, user := some (("u").data),
            password := some (("p").data), database := some (("d").data) })
        { establish := fun _ => none }).result
      = Except.error ConnErr.missingParams
    ∧ (Squix.connect (Squix.init none) Provider.postgresql
        (Connection.params
          { host := some [], port := some 5432, user := some (("u").data),
            password := some (("p").data), database := some (("d").data) })
        { establish := fun _ => none }).attemptedUrls = [] :=
  ⟨⟨rfl, rfl⟩, rfl, rfl⟩

/-- C8 amended: if any of the five structured fields is missing, `connect`
fails with the configuration error before any connection attempt; when all
five are present with truthy values (non-empty strings, non-zero port) it
assembles the datasource URL and proceeds to open the connection with it. -/
theorem claim_C8_amended (st : SquixState) (provider : Provider)
    (p : ConnectionParams) (oracle : DbOracle) :
    ((p.host = none ∨ p.port = none ∨ p.user = none ∨ p.password = none
        ∨ p.database = none) →
      (Squix.connect st provider (Connection.params p) oracle).result
          = Except.error ConnErr.missingParams
        ∧ (Squix.connect st provider (Connection.params p) oracle).attemptedUrls
          = [])
    ∧ ((optFalsyStr p.host = false ∧ optFalsyInt p.port = false
        ∧ optFalsyStr p.user = false ∧ optFalsyStr p.password = false
        ∧ optFalsyStr p.database = false) →
      (Squix.connect st provider (Connection.params p) oracle).attemptedUrls
        = [buildUrl provider p]) := by
  constructor
  · intro hmiss
    have hf : paramsFalsy p = true := by
      unfold paramsFalsy
      rcases hmiss with h | h | h | h | h <;> rw [h] <;>
        simp [optFalsyStr, optFalsyInt]
    rw [connect_params_falsy st provider p oracle hf]
    exact ⟨rfl, rfl⟩
  · rintro ⟨h1, h2, h3, h4, h5⟩
    have hf : paramsFalsy p = false := by
      unfold paramsFalsy
      rw [h1, h2, h3, h4, h5]
      rfl
    unfold Squix.connect resolveDatasourceUrl
    dsimp only
    rw [hf]
    simp only [Bool.false_eq_true, if_false]
    cases oracle.establish (buildUrl provider p) <;> rfl

/-- Witness for C8 (amended): an omitted `host` fails before any attempt; a
complete truthy parameter set reaches the connection attempt with the
assembled URL. -/
theorem claim_C8_witness :
    (Squix.connect (Squix.init none) Provider.postgresql
        (Connection.params
          { host := none, port := some 5432, user := some (("u").data),
            password := some (("p").data), database := some (("d").data) })
        { establish := fun _ => none }).result
      = Except.error ConnErr.missingParams
    ∧ (Squix.connect (Squix.init none) Provider.mysql
        (Connection.params
          { host := some (("h").data), port := some 3306,
            user := some (("u").data), password := some (("p").data),
            database := some (("d").data) })
        { establish := fun _ => none }).attemptedUrls
      = [buildUrl Provider.mysql
          { host := some (("h").data), port := some 3306,
            user := some (("u").data), password := some (("p").data),
            database := some (("d").data) }] :=
  ⟨((claim_C8_amended _ _ _ _).1 (Or.inl rfl)).1,
   (claim_C8_amended _ _ _ _).2 ⟨rfl, rfl, rfl, rfl, rfl⟩⟩

/-- C10: a structured connection field that is present but falsy (`0` port or
an empty string) triggers the same missing-parameters configuration error as
omitting the field entirely, before any connection attempt. -/
theorem claim_C10 (st : SquixState) (provider : Provider)
    (p : ConnectionParams) (oracle : DbOracle)
    (hfalsy : p.host = some [] ∨ p.port = some 0 ∨ p.user = some []
      ∨ p.password = some [] ∨ p.database = some []) :
    (Squix.connect st provider (Connection.params p) oracle).result
        = Except.error ConnErr.missingParams
      ∧ (Squix.connect st provider (Connection.params p) oracle).attemptedUrls
        = []
      ∧ Squix.connect st provider (Connection.params p) oracle
        = Squix.connect st provider
            (Connection.params
              { host := none, port := none, user := none, password := none,
                database := none }) oracle := by
  have hf : paramsFalsy p = true := by
    unfold paramsFalsy
    rcases hfalsy with h | h | h | h | h <;> rw [h] <;>
      simp [optFalsyStr, optFalsyInt]
  rw [connect_params_falsy st provider p oracle hf,
    connect_params_falsy st provider
      { host := none, port := none, user := none, password := none,
        database := none } oracle rfl]
  exact ⟨rfl, rfl, rfl⟩

/-- Witness for C10: a present-but-empty `password` is rejected exactly like
an omitted one. -/
theorem claim_C10_witness :
    (Squix.connect (Squix.init none) Provider.postgresql
        (Connection.params
          { host := some (("h").data), port := some 5432,
            user := some (("u").data), password := some [],
            database := some (("d").data) })
        { establish := fun _ => none }).result
      = Except.error ConnErr.missingParams :=
  (claim_C10 (Squix.init none) Provider.postgresql
    { host := some (("h").data), port := some 5432,
      user := some (("u").data), password := some [],
      database := some (("d").data) }
    { establish := fun _ => none }
    (Or.inr (Or.inr (Or.inr (Or.inl rfl))))).1

theorem trimList_eq_dropTrailingWS (l : List Char) :
    trimList l = dropTrailingWS (l.dropWhile isWS) := rfl

theorem dropWhile_eq_self_of_head (p : Char → Bool) (l : List Char)
    (h : ∀ c, l.head? = some c → p c = false) : l.dropWhile p = l := by
  cases l with
  | nil => rfl
  | cons c rest => simp [List.dropWhile_cons, h c rfl]

theorem dropTrailingWS_append (u v : List Char) (hv : dropTrailingWS v ≠ []) :
    dropTrailingWS (u ++ v) = u ++ dropTrailingWS v := by
  unfold dropTrailingWS at hv ⊢
  have hne : (v.reverse.dropWhile isWS).isEmpty = false := by
    rcases hd : v.reverse.dropWhile isWS with _ | ⟨c, cs⟩
    · rw [hd] at hv
      simp at hv
    · rfl
  rw [List.reverse_append, List.dropWhile_append, hne]
  simp

theorem dropTrailingWS_left (m b : List Char) (hm : m ≠ [])
    (h2 : ∀ c, m.getLast? = some c → isWS c = false) :
    dropTrailingWS (m ++ b) = m ++ dropTrailingWS b := by
  unfold dropTrailingWS
  rw [List.reverse_append, List.dropWhile_append]
  by_cases he : (b.reverse.dropWhile isWS).isEmpty
  · rw [if_pos he]
    rw [dropWhile_eq_self_of_head isWS m.reverse]
    · rw [List.isEmpty_iff.mp he]
      simp
    · intro c hc
      rw [List.head?_reverse] at hc
      exact h2 c hc
  · rw [if_neg he]
    simp

theorem trimList_sandwich (a m b : List Char) (hm : m ≠ [])
    (h1 : ∀ c, m.head? = some c → isWS c = false)
    (h2 : ∀ c, m.getLast? = some c → isWS c = false) :
    trimList (a ++ m ++ b)
      = a.dropWhile isWS ++ m ++ dropTrailingWS b := by
  have hd : (a ++ m ++ b).dropWhile isWS = a.dropWhile isWS ++ (m ++ b) := by
    rw [List.append_assoc, List.dropWhile_append]
    by_cases he : (a.dropWhile isWS).isEmpty
    · rw [if_pos he]
      rw [dropWhile_eq_self_of_head isWS (m ++ b)]
      · rw [List.isEmpty_iff.mp he]
        simp
      · intro c hc
        rcases m with _ | ⟨m₀, m'⟩
        · exact absurd rfl hm
        · simp only [List.cons_append, List.head?_cons, Option.some.injEq] at hc
          subst hc
          exact h1 _ rfl
    · rw [if_neg he]
  rw [trimList_eq_dropTrailingWS, hd]
  rw [dropTrailingWS_append _ _ ?_, dropTrailingWS_left m b hm h2,
    List.append_assoc]
  rw [dropTrailingWS_left m b hm h2]
  intro hcon
  rcases m with _ | ⟨m₀, m'⟩
  · exact absurd rfl hm
  · simp at hcon

theorem backticks_not_isPrefixOf {c : Char} (hc : c ≠ '\x60') (l : List Char) :
    (("```").data).isPrefixOf (c :: l) = false := by
  rw [show ("```").data = ['\x60', '\x60', '\x60'] from rfl]
  simp only [List.isPrefixOf, Bool.and_eq_false_iff, beq_eq_false_iff_ne, ne_eq]
  left
  exact fun h => hc h.symm

theorem lineStart_cons (s : Bool) (c : Char) (a : List Char) :
    lineStart s (c :: a) = lineStart (decide (c = '\n')) a := by
  cases a with
  | nil => rfl
  | cons y ys =>
    simp only [lineStart, List.getLast?_cons_cons]
    cases h : (y :: ys).getLast?
    · exact absurd h (by simp)
    · rfl

theorem findLeadFence_append (a : List Char) :
    ∀ (b : List Char), '\x60' ∉ a → ∀ s,
      findLeadFence (a ++ b) s
        = (findLeadFence b (lineStart s a)).map (fun n => n + a.length) := by
  induction a with
  | nil =>
    intro b _ s
    simp [lineStart]
  | cons c a' ih =>
    intro b ha s
    have hc : c ≠ '\x60' := fun h => ha (h ▸ List.mem_cons_self c a')
    rw [List.cons_append]
    show (if (s && (("```").data).isPrefixOf (c :: (a' ++ b))) = true then some 0
      else (findLeadFence (a' ++ b) (c = '\n')).map (fun n => n + 1)) = _
    rw [backticks_not_isPrefixOf hc]
    simp only [Bool.and_false, Bool.false_eq_true, if_false]
    rw [ih b (fun h => ha (List.mem_cons_of_mem c h)) (decide (c = '\n'))]
    rw [← lineStart_cons s c a']
    cases findLeadFence b (lineStart s (c :: a')) with
    | none => rfl
    | some n =>
      dsimp only [Option.map]
      rw [List.length_cons, Nat.add_assoc]

theorem findLeadFence_fence (rest : List Char) :
    findLeadFence ((("```").data) ++ rest) true = some 0 := by
  rw [show ("```").data = ['\x60', '\x60', '\x60'] from rfl]
  simp [findLeadFence, List.isPrefixOf]

theorem findLeadFence_none (l : List Char) (h : '\x60' ∉ l) (s : Bool) :
    findLeadFence l s = none := by
  have := findLeadFence_append l [] h s
  rw [List.append_nil] at this
  rw [this]
  rfl

theorem removeLeadingFence_concrete (pre G X : List Char)
    (hpre : '\x60' ∉ pre) (hpreLS : lineStart true pre = true)
    (hG : findLeadFence G true = some 0)
    (hspan : (G.drop 3).drop (leadSpanLen (G.drop 3)) = X) :
    removeLeadingFence (pre ++ G) = pre ++ X := by
  unfold removeLeadingFence
  rw [findLeadFence_append pre G hpre, hpreLS, hG]
  dsimp only [Option.map]
  rw [Nat.zero_add]
  have hd : List.drop (pre.length + 3) (pre ++ G) = List.drop 3 G := by
    rw [← List.drop_drop, List.drop_left]
  rw [List.take_left, hd, hspan]

theorem isPrefixOf_self_append (l r : List Char) : l.isPrefixOf (l ++ r) = true := by
  rw [List.isPrefixOf_iff_prefix]
  exact List.prefix_append l r

theorem backticks_not_isPrefixOf_of_head (l : List Char)
    (h : l.head? ≠ some '\x60') : (("```").data).isPrefixOf l = false := by
  cases l with
  | nil => rfl
  | cons d ds =>
    have hd : d ≠ '\x60' := by
      intro he
      exact h (by rw [List.head?_cons, he])
    exact backticks_not_isPrefixOf hd ds

theorem trailMatchAt_none_of_ne (c : Char) (rest : List Char)
    (hc : c ≠ '\x60') (hr : c = '\n' → rest.head? ≠ some '\x60') :
    trailMatchAt (c :: rest) = none := by
  unfold trailMatchAt
  split
  · next rest' heq =>
    obtain ⟨hc', hr'⟩ : c = '\n' ∧ rest = rest' := by
      injection heq with h1 h2
      exact ⟨h1, h2⟩
    subst hr'
    rw [backticks_not_isPrefixOf_of_head rest (hr hc')]
    rfl
  · next hne =>
    rw [backticks_not_isPrefixOf hc rest]
    rfl

theorem findTrailFence_append : ∀ (a b : List Char), '\x60' ∉ a →
    b.head? ≠ some '\x60' →
    findTrailFence (a ++ b)
      = (findTrailFence b).map (fun p => (p.1 + a.length, p.2)) := by
  intro a
  induction a with
  | nil =>
    intro b _ _
    rw [List.nil_append]
    cases h : findTrailFence b with
    | none => rfl
    | some p => simp
  | cons c a' ih =>
    intro b ha hb
    have hc : c ≠ '\x60' := fun h => ha (h ▸ List.mem_cons_self c a')
    rw [List.cons_append]
    have hmt : trailMatchAt (c :: (a' ++ b)) = none := by
      refine trailMatchAt_none_of_ne c (a' ++ b) hc (fun _ => ?_)
      cases a' with
      | nil =>
        rw [List.nil_append]
        exact hb
      | cons x xs =>
        have hx : x ≠ '\x60' :=
          fun h => ha (h ▸ List.mem_cons_of_mem c (List.mem_cons_self x xs))
        rw [List.cons_append, List.head?_cons]
        intro hcon
        exact hx (by injection hcon)
    show (match trailMatchAt (c :: (a' ++ b)) with
      | some span => some (0, span)
      | none => (findTrailFence (a' ++ b)).map
          (fun p : Nat × Nat => (p.1 + 1, p.2))) = _
    rw [hmt]
    rw [ih b (fun h => ha (List.mem_cons_of_mem c h)) hb]
    cases findTrailFence b with
    | none => rfl
    | some p =>
      simp only [Option.map_some']
      rw [List.length_cons, Nat.add_assoc]

theorem findTrailFence_none : ∀ (l : List Char), '\x60' ∉ l →
    findTrailFence l = none := by
  intro l
  induction l with
  | nil => intro _; rfl
  | cons c rest ih =>
    intro h
    have hc : c ≠ '\x60' := fun he => h (he ▸ List.mem_cons_self c rest)
    have hmt : trailMatchAt (c :: rest) = none := by
      refine trailMatchAt_none_of_ne c rest hc (fun _ => ?_)
      cases rest with
      | nil => simp
      | cons d ds =>
        rw [List.head?_cons]
        intro hcon
        have hd : d = '\x60' := by injection hcon
        exact h (hd ▸ List.mem_cons_of_mem c (List.mem_cons_self d ds))
    show (match trailMatchAt (c :: rest) with
      | some span => some (0, span)
      | none => (findTrailFence rest).map
          (fun p : Nat × Nat => (p.1 + 1, p.2))) = none
    rw [hmt, ih (fun hm => h (List.mem_cons_of_mem c hm))]
    rfl

theorem wsBacktrack_nil : wsBacktrack [] = some 0 := rfl

theorem wsBacktrack_nl (c : Char) (rs : List Char) (hc : isWS c = false) :
    wsBacktrack ('\n' :: c :: rs) = some 0 := by
  have hcn : c ≠ '\n' := by
    intro he
    rw [he] at hc
    exact absurd hc (by decide)
  unfold wsBacktrack
  have hrun : (('\n' :: c :: rs).takeWhile isWS).length = 1 := by
    rw [List.takeWhile_cons, if_pos (show isWS '\n' = true from rfl),
      List.takeWhile_cons, if_neg]
    · rfl
    · rw [hc]
      exact Bool.false_ne_true
  rw [hrun]
  show List.find? (fun j => lineEndAt (List.drop j ('\n' :: c :: rs)))
    (List.range (1 + 1)).reverse = some 0
  rw [show (List.range (1 + 1)).reverse = [1, 0] from rfl]
  have e1 : lineEndAt (List.drop 1 ('\n' :: c :: rs)) = false := by
    show lineEndAt (c :: rs) = false
    unfold lineEndAt
    simp [hcn]
  have e0 : lineEndAt (List.drop 0 ('\n' :: c :: rs)) = true := rfl
  simp only [List.find?, e1, e0]

theorem trailMatchAt_fence (post : List Char) (hws : wsBacktrack post = some 0) :
    trailMatchAt ('\n' :: ((("```").data) ++ post)) = some 4 := by
  show (if ((("```").data).isPrefixOf ((("```").data) ++ post)) = true
      then Option.map (fun j => 4 + j)
        (wsBacktrack (List.drop 3 ((("```").data) ++ post)))
      else none) = some 4
  rw [isPrefixOf_self_append]
  rw [show List.drop 3 ((("```").data) ++ post) = post from rfl]
  rw [hws]
  rfl

theorem removeTrailingFence_concrete (a post : List Char)
    (ha : '\x60' ∉ a) (hws : wsBacktrack post = some 0) :
    removeTrailingFence (a ++ ('\n' :: ((("```").data) ++ post)))
      = a ++ post := by
  unfold removeTrailingFence
  have hb : ('\n' :: ((("```").data) ++ post)).head? ≠ some '\x60' := by
    rw [List.head?_cons]
    intro hcon
    have : '\n' = '\x60' := by injection hcon
    exact absurd this (by decide)
  rw [findTrailFence_append a _ ha hb]
  have hf : findTrailFence ('\n' :: ((("```").data) ++ post)) = some (0, 4) := by
    show (match trailMatchAt ('\n' :: ((("```").data) ++ post)) with
      | some span => some (0, span)
      | none => (findTrailFence ((("```").data) ++ post)).map
          (fun p : Nat × Nat => (p.1 + 1, p.2))) = some (0, 4)
    rw [trailMatchAt_fence post hws]
  rw [hf]
  dsimp only [Option.map]
  rw [Nat.zero_add, List.take_left]
  have hd : List.drop (a.length + 4) (a ++ ('\n' :: ((("```").data) ++ post)))
      = post := by
    rw [← List.drop_drop, List.drop_left]
    rfl
  rw [hd]

theorem leadSpan_drop (tag X : List Char)
    (htag : tag = [] ∨ tag = ("json").data ∨ tag = ("JSON").data)
    (hX : X.head? = some '\x7b') :
    (tag ++ ('\n' :: X)).drop (leadSpanLen (tag ++ ('\n' :: X))) = X := by
  obtain ⟨X', hX'⟩ := List.head?_eq_some_iff.mp hX
  subst hX'
  rcases htag with h | h | h <;> subst h <;> rfl

theorem commentaryFree_mono {l l' : List Char} (hs : List.Sublist l l')
    (h : commentaryFree l') : commentaryFree l :=
  fun c hc => h c (hs.subset hc)

theorem commentaryFree_no_backtick {l : List Char} (h : commentaryFree l) :
    '\x60' ∉ l :=
  fun hmem => (h _ hmem).2.2 rfl

theorem dropTrailingWS_sublist (l : List Char) : List.Sublist (dropTrailingWS l) l := by
  unfold dropTrailingWS
  have h1 : List.Sublist (l.reverse.dropWhile isWS) l.reverse :=
    List.dropWhile_sublist isWS
  have h2 := h1.reverse
  rwa [List.reverse_reverse] at h2

theorem lineStart_dropWhile (pre : List Char)
    (h : pre = [] ∨ pre.getLast? = some '\n') :
    lineStart true (pre.dropWhile isWS) = true := by
  cases hd : pre.dropWhile isWS with
  | nil => rfl
  | cons c rest =>
    have hne : pre ≠ [] := by
      intro hnil
      rw [hnil] at hd
      simp at hd
    have hlast : pre.getLast? = some '\n' := h.resolve_left hne
    have hsplit : pre = pre.takeWhile isWS ++ (c :: rest) := by
      rw [← hd, List.takeWhile_append_dropWhile]
    have : (c :: rest).getLast? = some '\n' := by
      rw [hsplit, List.getLast?_append] at hlast
      cases hcr : (c :: rest).getLast? with
      | none => simp at hcr
      | some d =>
        rw [hcr, Option.or_some] at hlast
        exact hlast
    unfold lineStart
    rw [this]
    simp

theorem dropTrailingWS_nl (r : List Char)
    (hr : ∀ c, r.head? = some c → isWS c = false) :
    dropTrailingWS ('\n' :: r) = [] ∨
    ∃ c rs, dropTrailingWS ('\n' :: r) = '\n' :: c :: rs ∧ isWS c = false ∧
      List.Sublist (dropTrailingWS ('\n' :: r)) ('\n' :: r) := by
  cases r with
  | nil => left; rfl
  | cons c rest =>
    right
    have hc : isWS c = false := hr c rfl
    have hdw : ('\n' :: c :: rest).reverse.dropWhile isWS
        = (rest.reverse.dropWhile isWS) ++ [c, '\n'] := by
      rw [show ('\n' :: c :: rest).reverse = rest.reverse ++ [c, '\n'] by simp]
      rw [List.dropWhile_append]
      by_cases he : (rest.reverse.dropWhile isWS).isEmpty
      · rw [if_pos he, List.isEmpty_iff.mp he]
        rw [List.dropWhile_cons, if_neg (by rw [hc]; exact Bool.false_ne_true)]
        simp
      · rw [if_neg he]
    refine ⟨c, (rest.reverse.dropWhile isWS).reverse, ?_, hc,
      dropTrailingWS_sublist _⟩
    unfold dropTrailingWS
    rw [hdw]
    simp

theorem indexOfChar_middle (a m b : List Char) (ch : Char)
    (ha : ∀ c ∈ a, c ≠ ch) (hm : m.head? = some ch) :
    indexOfChar ((a ++ m) ++ b) ch = some a.length := by
  unfold indexOfChar
  rw [List.append_assoc, List.findIdx?_append]
  have hnone : a.findIdx? (fun x => x = ch) = none := by
    rw [List.findIdx?_eq_none_iff]
    intro x hx
    simp [ha x hx]
  rw [hnone]
  obtain ⟨m', hm'⟩ := List.head?_eq_some_iff.mp hm
  subst hm'
  rw [List.cons_append, List.findIdx?_cons]
  simp

theorem lastIndexOfChar_middle (a m b : List Char) (ch : Char)
    (hb : ∀ c ∈ b, c ≠ ch) (hm : m.getLast? = some ch) :
    lastIndexOfChar ((a ++ m) ++ b) ch = some (a.length + m.length - 1) := by
  unfold lastIndexOfChar
  obtain ⟨m', hm'⟩ := List.getLast?_eq_some_iff.mp hm
  subst hm'
  have hrev : (((a ++ (m' ++ [ch])) ++ b)).reverse
      = b.reverse ++ ((ch :: m'.reverse) ++ a.reverse) := by
    simp
  rw [hrev]
  rw [List.findIdx?_append]
  have hnone : b.reverse.findIdx? (fun x => x = ch) = none := by
    rw [List.findIdx?_eq_none_iff]
    intro x hx
    rw [List.mem_reverse] at hx
    simp [hb x hx]
  rw [hnone]
  rw [List.cons_append, List.findIdx?_cons]
  simp
  omega

theorem parseIntelligentJson_of_clean (text a m b : List Char) (v : Json)
    (hclean : trimList (removeTrailingFence (removeLeadingFence (trimList text)))
      = (a ++ m) ++ b)
    (ha : ∀ c ∈ a, c ≠ '\x7b' ∧ c ≠ '\x7d')
    (hb : ∀ c ∈ b, c ≠ '\x7b' ∧ c ≠ '\x7d')
    (hf : m.head? = some '\x7b') (hl : m.getLast? = some '\x7d')
    (hv : JSONparse m = some v) :
    parseIntelligentJson text = Except.ok v := by
  have hmne : m ≠ [] := by
    intro hnil
    rw [hnil] at hf
    simp at hf
  have hmlen : 1 ≤ m.length := by
    cases m with
    | nil => exact absurd rfl hmne
    | cons x xs => simp
  unfold parseIntelligentJson
  dsimp only
  rw [hclean]
  rw [indexOfChar_middle a m b _ (fun c hc => (ha c hc).1) hf]
  rw [lastIndexOfChar_middle a m b _ (fun c hc => (hb c hc).2) hl]
  dsimp only
  rw [if_neg (by omega)]
  have hdrop : List.drop a.length ((a ++ m) ++ b) = m ++ b := by
    rw [List.append_assoc, List.drop_left]
  have htake : List.take (a.length + m.length - 1 + 1 - a.length) (m ++ b) = m := by
    rw [show a.length + m.length - 1 + 1 - a.length = m.length by omega]
    exact List.take_left m b
  rw [hdrop, htake, hv]

/-- C4: a model response made of a valid JSON object, optionally wrapped in a
fenced-code marker with an optional `json`/`JSON` language tag and surrounded
by leading and/or trailing free-text commentary (text without braces or
backticks), is reduced by `parseIntelligentJson` to exactly the embedded
object. -/
theorem claim_C4 (pre tag obj post input : List Char) (v : Json)
    (hpre : commentaryFree pre)
    (hobjF : obj.head? = some '\x7b')
    (hobjL : obj.getLast? = some '\x7d')
    (hobjB : ∀ c ∈ obj, c ≠ '\x60')
    (hv : JSONparse obj = some v)
    (hshape :
      (input = pre ++ ("```").data ++ tag ++ ['\n'] ++ obj
          ++ ['\n'] ++ ("```").data ++ post
        ∧ (tag = [] ∨ tag = ("json").data ∨ tag = ("JSON").data)
        ∧ (pre = [] ∨ pre.getLast? = some '\n')
        ∧ (post = [] ∨ ∃ r, post = '\n' :: r ∧ commentaryFree r
            ∧ (∀ c, r.head? = some c → isWS c = false)))
      ∨ (input = pre ++ obj ++ post ∧ commentaryFree post)) :
    parseIntelligentJson input = Except.ok v := by
  have hobjne : obj ≠ [] := by
    intro h
    rw [h] at hobjF
    simp at hobjF
  have hobjHead : ∀ c, obj.head? = some c → isWS c = false := by
    intro c hc
    rw [hobjF] at hc
    injection hc with hc
    subst hc
    rfl
  have hobjLast : ∀ c, obj.getLast? = some c → isWS c = false := by
    intro c hc
    rw [hobjL] at hc
    injection hc with hc
    subst hc
    rfl
  have hpreBt : '\x60' ∉ pre := commentaryFree_no_backtick hpre
  have ha1sub : List.Sublist (pre.dropWhile isWS) pre :=
    List.dropWhile_sublist isWS
  have ha1bt : '\x60' ∉ pre.dropWhile isWS :=
    fun hmem => hpreBt (ha1sub.subset hmem)
  have ha2sub : List.Sublist ((pre.dropWhile isWS).dropWhile isWS) pre :=
    (List.dropWhile_sublist isWS).trans ha1sub
  have haBr : ∀ c ∈ (pre.dropWhile isWS).dropWhile isWS,
      c ≠ '\x7b' ∧ c ≠ '\x7d' := by
    intro c hc
    have := hpre c (ha2sub.subset hc)
    exact ⟨this.1, this.2.1⟩
  have hbsub : List.Sublist (dropTrailingWS (dropTrailingWS post)) post :=
    (dropTrailingWS_sublist _).trans (dropTrailingWS_sublist _)
  rcases hshape with ⟨hin, htag, hpreNL, hpost⟩ | ⟨hin, hpostC⟩
  · -- fenced wrapping
    subst hin
    have hpostBr : ∀ c ∈ post, c ≠ '\x7b' ∧ c ≠ '\x7d' := by
      rcases hpost with hps | ⟨r, hpr, hrC, _⟩
      · subst hps
        intro c hc
        simp at hc
      · subst hpr
        intro c hc
        rcases List.mem_cons.mp hc with h | h
        · subst h
          exact ⟨by decide, by decide⟩
        · exact ⟨(hrC c h).1, (hrC c h).2.1⟩
    have hMhead : ∀ c,
        ((("```").data ++ tag ++ ['\n'] ++ obj ++ ['\n'] ++ ("```").data).head?)
          = some c → isWS c = false := by
      intro c hc
      rw [show (("```").data ++ tag ++ ['\n'] ++ obj ++ ['\n']
          ++ ("```").data).head? = some '\x60' from rfl] at hc
      injection hc with hc
      subst hc
      rfl
    have hMlast : ∀ c,
        ((("```").data ++ tag ++ ['\n'] ++ obj ++ ['\n'] ++ ("```").data).getLast?)
          = some c → isWS c = false := by
      intro c hc
      rw [List.getLast?_append] at hc
      rw [show (("```").data).getLast? = some '\x60' from rfl] at hc
      rw [Option.or_some] at hc
      injection hc with hc
      subst hc
      rfl
    have hsand1 : trimList (pre ++ ("```").data ++ tag ++ ['\n'] ++ obj
        ++ ['\n'] ++ ("```").data ++ post)
        = (pre.dropWhile isWS ++ (("```").data ++ tag ++ ['\n'] ++ obj
            ++ ['\n'] ++ ("```").data)) ++ dropTrailingWS post := by
      have hg : pre ++ ("```").data ++ tag ++ ['\n'] ++ obj ++ ['\n']
          ++ ("```").data ++ post
          = (pre ++ (("```").data ++ tag ++ ['\n'] ++ obj ++ ['\n']
              ++ ("```").data)) ++ post := by
        simp [List.append_assoc]
      rw [hg]
      exact trimList_sandwich pre _ post (by simp) hMhead hMlast
    have hXhead : (obj ++ ('\n' :: (("```").data ++ dropTrailingWS post))).head?
        = some '\x7b' := by
      obtain ⟨obj', hobj'⟩ := List.head?_eq_some_iff.mp hobjF
      rw [hobj']
      rfl
    have hregroup2 : (pre.dropWhile isWS ++ (("```").data ++ tag ++ ['\n'] ++ obj
        ++ ['\n'] ++ ("```").data)) ++ dropTrailingWS post
        = pre.dropWhile isWS ++ (("```").data ++ (tag ++ ('\n'
            :: (obj ++ ('\n' :: (("```").data ++ dropTrailingWS post)))))) := by
      simp [List.append_assoc]
    have hlead : removeLeadingFence (pre.dropWhile isWS ++ (("```").data
        ++ (tag ++ ('\n' :: (obj ++ ('\n'
            :: (("```").data ++ dropTrailingWS post)))))))
        = pre.dropWhile isWS ++ (obj ++ ('\n'
            :: (("```").data ++ dropTrailingWS post))) := by
      refine removeLeadingFence_concrete _ _ _ ha1bt
        (lineStart_dropWhile pre hpreNL) (findLeadFence_fence _) ?_
      rw [show ((("```").data ++ (tag ++ ('\n' :: (obj ++ ('\n'
          :: (("```").data ++ dropTrailingWS post)))))).drop 3)
          = tag ++ ('\n' :: (obj ++ ('\n'
              :: (("```").data ++ dropTrailingWS post)))) from rfl]
      exact leadSpan_drop tag _ htag hXhead
    have hregroup3 : pre.dropWhile isWS ++ (obj ++ ('\n'
        :: (("```").data ++ dropTrailingWS post)))
        = (pre.dropWhile isWS ++ obj) ++ ('\n'
            :: (("```").data ++ dropTrailingWS post)) := by
      simp [List.append_assoc]
    have hws : wsBacktrack (dropTrailingWS post) = some 0 := by
      rcases hpost with hps | ⟨r, hpr, _, hrH⟩
      · subst hps
        exact wsBacktrack_nil
      · subst hpr
        rcases dropTrailingWS_nl r hrH with hz | ⟨c, rs, hz, hc, _⟩
        · rw [hz]
          exact wsBacktrack_nil
        · rw [hz]
          exact wsBacktrack_nl c rs hc
    have htrail : removeTrailingFence ((pre.dropWhile isWS ++ obj)
        ++ ('\n' :: (("```").data ++ dropTrailingWS post)))
        = (pre.dropWhile isWS ++ obj) ++ dropTrailingWS post := by
      refine removeTrailingFence_concrete _ _ ?_ hws
      intro hmem
      rcases List.mem_append.mp hmem with h | h
      · exact ha1bt h
      · exact hobjB _ h rfl
    have hsand2 : trimList ((pre.dropWhile isWS ++ obj) ++ dropTrailingWS post)
        = ((pre.dropWhile isWS).dropWhile isWS ++ obj)
            ++ dropTrailingWS (dropTrailingWS post) :=
      trimList_sandwich _ obj _ hobjne hobjHead hobjLast
    refine parseIntelligentJson_of_clean _ ((pre.dropWhile isWS).dropWhile isWS)
      obj (dropTrailingWS (dropTrailingWS post)) v ?_ haBr ?_ hobjF hobjL hv
    · rw [hsand1, hregroup2, hlead, hregroup3, htrail, hsand2]
    · intro c hc
      exact hpostBr c (hbsub.subset hc)
  · -- no fence
    subst hin
    have hsand1 : trimList ((pre ++ obj) ++ post)
        = (pre.dropWhile isWS ++ obj) ++ dropTrailingWS post :=
      trimList_sandwich pre obj post hobjne hobjHead hobjLast
    have hnb : '\x60' ∉ (pre.dropWhile isWS ++ obj) ++ dropTrailingWS post := by
      intro hmem
      rcases List.mem_append.mp hmem with h | h
      · rcases List.mem_append.mp h with h2 | h2
        · exact ha1bt h2
        · exact hobjB _ h2 rfl
      · exact commentaryFree_no_backtick hpostC
          ((dropTrailingWS_sublist post).subset h)
    have hlead : removeLeadingFence ((pre.dropWhile isWS ++ obj)
        ++ dropTrailingWS post)
        = (pre.dropWhile isWS ++ obj) ++ dropTrailingWS post := by
      unfold removeLeadingFence
      rw [findLeadFence_none _ hnb true]
    have htrail : removeTrailingFence ((pre.dropWhile isWS ++ obj)
        ++ dropTrailingWS post)
        = (pre.dropWhile isWS ++ obj) ++ dropTrailingWS post := by
      unfold removeTrailingFence
      rw [findTrailFence_none _ hnb]
    have hsand2 : trimList ((pre.dropWhile isWS ++ obj) ++ dropTrailingWS post)
        = ((pre.dropWhile isWS).dropWhile isWS ++ obj)
            ++ dropTrailingWS (dropTrailingWS post) :=
      trimList_sandwich _ obj _ hobjne hobjHead hobjLast
    refine parseIntelligentJson_of_clean _ ((pre.dropWhile isWS).dropWhile isWS)
      obj (dropTrailingWS (dropTrailingWS post)) v ?_ haBr ?_ hobjF hobjL hv
    · rw [show trimList (pre ++ obj ++ post)
          = trimList ((pre ++ obj) ++ post) from rfl]
      rw [hsand1, hlead, htrail, hsand2]
    · intro c hc
      have := hpostC c (hbsub.subset hc)
      exact ⟨this.1, this.2.1⟩

/-- Witness for C4: the concrete fenced response
"Sure!\n\x60\x60\x60json\n\x7b"intent":"general_chat"\x7d\n\x60\x60\x60\nOK"
parses to exactly the embedded JSON object. -/
theorem claim_C4_witness :
    parseIntelligentJson
      ("Sure!\n```json\n\x7b\x22intent\x22:\x22general_chat\x22\x7d\n```\nOK").data
      = Except.ok (Json.obj [(("intent").data, Json.str ("general_chat").data)]) := by
  have hrH : ∀ c, (("OK").data).head? = some c → isWS c = false := by
    intro c hc
    rw [show (("OK").data).head? = some 'O' from rfl] at hc
    injection hc with hc
    subst hc
    rfl
  exact claim_C4 (("Sure!\n").data) (("json").data)
    (("\x7b\x22intent\x22:\x22general_chat\x22\x7d").data) (("\nOK").data)
    (("Sure!\n```json\n\x7b\x22intent\x22:\x22general_chat\x22\x7d\n```\nOK").data)
    (Json.obj [(("intent").data, Json.str ("general_chat").data)])
    (by unfold commentaryFree; decide) rfl rfl (by decide) rfl
    (Or.inl ⟨rfl, Or.inr (Or.inl rfl), Or.inr rfl,
      Or.inr ⟨("OK").data, rfl, by unfold commentaryFree; decide, hrH⟩⟩)
